import Mathlib

/-!
# Lab6CG: the rotating cube of `src/main.cpp`

A shallow embedding of the per-frame logic of `main` (the key-driven update of the
accumulated model transform, the transformed corners, the per-face depth sums, their
sort, the six draw calls) and of the start-up / exit control flow.

Arithmetic is exact: scalars live in an arbitrary field `α` (`ℚ` for evaluation, `ℝ` for
the intended reading).  The three scalar library functions the program reaches through
GLM (`cos`, `sin`, `inversesqrt`) are parameters, collected in `ScalarFns`.
-/

set_option autoImplicit false

namespace Lab6CG

/-! ## Scalars and GLM vectors / matrices -/

/-- Scalar functions of the C++ maths library used by `glm::rotate` and `glm::normalize`.
They are not defined in this repository, so the embedding takes them as parameters. -/
structure ScalarFns (α : Type) where
  /-- Cosine, `glm::cos`. -/
  cos : α → α
  /-- Sine, `glm::sin`. -/
  sin : α → α
  /-- Reciprocal square root, `glm::inversesqrt`. -/
  inversesqrt : α → α

/-- What exact (real-number) arithmetic guarantees about the scalar functions, as far as
the program needs it: the Pythagorean identity and `inversesqrt 1 = 1`. -/
structure ScalarFns.Exact {α : Type} [Field α] (L : ScalarFns α) : Prop where
  /-- Pythagorean identity. -/
  cos_sq_add_sin_sq : ∀ a : α, L.cos a * L.cos a + L.sin a * L.sin a = 1
  /-- A unit vector has reciprocal length one. -/
  inversesqrt_one : L.inversesqrt 1 = 1

/-- What exact arithmetic guarantees about sums of angles: the values at zero and the
addition formulas of cosine and sine. -/
structure ScalarFns.AngleSum {α : Type} [Field α] (L : ScalarFns α) : Prop where
  /-- Cosine of the zero angle. -/
  cos_zero : L.cos 0 = 1
  /-- Sine of the zero angle. -/
  sin_zero : L.sin 0 = 0
  /-- Addition formula of the cosine. -/
  cos_add : ∀ a b : α, L.cos (a + b) = L.cos a * L.cos b - L.sin a * L.sin b
  /-- Addition formula of the sine. -/
  sin_add : ∀ a b : α, L.sin (a + b) = L.sin a * L.cos b + L.cos a * L.sin b

/-- A computable stand-in over `ℚ`: every angle has cosine `3/5` and sine `4/5`. -/
def ratFns : ScalarFns ℚ where
  cos := fun _ => 3 / 5
  sin := fun _ => 4 / 5
  inversesqrt := fun _ => 1

/-- Three-component vector, `glm::vec3`. -/
@[ext]
structure Vec3 (α : Type) where
  x : α
  y : α
  z : α
deriving DecidableEq, Repr

/-- Four-component vector, `glm::vec4`; component `[2]` is `z`. -/
@[ext]
structure Vec4 (α : Type) where
  x : α
  y : α
  z : α
  w : α
deriving DecidableEq, Repr

/-- Column-major 4x4 matrix, `glm::mat4`: `m[i]` is the column `ci`. -/
@[ext]
structure Mat4 (α : Type) where
  c0 : Vec4 α
  c1 : Vec4 α
  c2 : Vec4 α
  c3 : Vec4 α
deriving DecidableEq, Repr

section Algebra

variable {α : Type} [Field α]

/-- Componentwise sum, `vec4 + vec4`. -/
def Vec4.add (u v : Vec4 α) : Vec4 α :=
  ⟨u.x + v.x, u.y + v.y, u.z + v.z, u.w + v.w⟩

/-- Vector times scalar, `vec4 * T`. -/
def Vec4.scale (u : Vec4 α) (k : α) : Vec4 α :=
  ⟨u.x * k, u.y * k, u.z * k, u.w * k⟩

/-- Vector times scalar, `vec3 * T`. -/
def Vec3.scale (u : Vec3 α) (k : α) : Vec3 α :=
  ⟨u.x * k, u.y * k, u.z * k⟩

/-- Scalar times vector, `T * vec3`. -/
def Vec3.lscale (k : α) (u : Vec3 α) : Vec3 α :=
  ⟨k * u.x, k * u.y, k * u.z⟩

/-- Dot product, `glm::dot` on `vec3`. -/
def Vec3.dot (u v : Vec3 α) : α :=
  u.x * v.x + u.y * v.y + u.z * v.z

/-- The function `glm::normalize` on `vec3`: `v * inversesqrt(dot(v, v))`. -/
def normalize (L : ScalarFns α) (v : Vec3 α) : Vec3 α :=
  v.scale (L.inversesqrt (v.dot v))

/-- The identity matrix, `glm::mat4(1.0f)`. -/
def Mat4.identity : Mat4 α :=
  ⟨⟨1, 0, 0, 0⟩, ⟨0, 1, 0, 0⟩, ⟨0, 0, 1, 0⟩, ⟨0, 0, 0, 1⟩⟩

/-- Matrix times column vector, GLM `mat4 * vec4`:
`(m[0]*v[0] + m[1]*v[1]) + (m[2]*v[2] + m[3]*v[3])`. -/
def Mat4.mulVec (m : Mat4 α) (v : Vec4 α) : Vec4 α :=
  ((m.c0.scale v.x).add (m.c1.scale v.y)).add ((m.c2.scale v.z).add (m.c3.scale v.w))

/-- Matrix product, GLM `mat4 * mat4`: column `j` of `a * b` is `a` applied to column `j`
of `b`, so that `(a * b) * v = a * (b * v)`. -/
def Mat4.mul (a b : Mat4 α) : Mat4 α :=
  ⟨a.mulVec b.c0, a.mulVec b.c1, a.mulVec b.c2, a.mulVec b.c3⟩

/-- The function `glm::rotate(m, angle, v)` of GLM (`glm/ext/matrix_transform.inl`), an
external library: it builds the 3x3 block `Rotate` of the rotation by `angle` about
`normalize(v)` and returns `m` with its first three columns recombined by it,
`Result[j] = m[0]*Rotate[j][0] + m[1]*Rotate[j][1] + m[2]*Rotate[j][2]`, and
`Result[3] = m[3]`. -/
def rotate (L : ScalarFns α) (m : Mat4 α) (angle : α) (v : Vec3 α) : Mat4 α :=
  let a := angle
  let c := L.cos a
  let s := L.sin a
  let axis := normalize L v
  let temp := Vec3.lscale (1 - c) axis
  let r00 := c + temp.x * axis.x
  let r01 := temp.x * axis.y + s * axis.z
  let r02 := temp.x * axis.z - s * axis.y
  let r10 := temp.y * axis.x - s * axis.z
  let r11 := c + temp.y * axis.y
  let r12 := temp.y * axis.z + s * axis.x
  let r20 := temp.z * axis.x + s * axis.y
  let r21 := temp.z * axis.y - s * axis.x
  let r22 := c + temp.z * axis.z
  { c0 := ((m.c0.scale r00).add (m.c1.scale r01)).add (m.c2.scale r02)
    c1 := ((m.c0.scale r10).add (m.c1.scale r11)).add (m.c2.scale r12)
    c2 := ((m.c0.scale r20).add (m.c1.scale r21)).add (m.c2.scale r22)
    c3 := m.c3 }

/-! ## The frame update of `main` (lines 197-235) -/

/-- The angular step `0.0005f` passed to every `glm::rotate` call. -/
def angleStep : α := 0.0005

end Algebra

/-- The six rotation inputs of one frame: for each key, whether
`glfwGetKey(window, KEY) == GLFW_PRESS`. -/
structure Keys where
  up : Bool
  down : Bool
  right : Bool
  left : Bool
  f : Bool
  g : Bool
deriving DecidableEq, Repr

/-- No rotation key held. -/
def Keys.none : Keys := ⟨false, false, false, false, false, false⟩

section Frame

variable {α : Type} [Field α]

/-- Lines 197-222 and 235: `transform` starts as `prev_transform`, goes through the six
`if (glfwGetKey(..) == GLFW_PRESS) transform = glm::rotate(transform, 0.0005f, axis)`
statements in source order, and is stored back into `prev_transform`. -/
def frameUpdate (L : ScalarFns α) (prev_transform : Mat4 α) (k : Keys) : Mat4 α :=
  let transform := prev_transform
  let transform := if k.up then rotate L transform angleStep ⟨1, 0, 0⟩ else transform
  let transform := if k.down then rotate L transform angleStep ⟨-1, 0, 0⟩ else transform
  let transform := if k.right then rotate L transform angleStep ⟨0, -1, 0⟩ else transform
  let transform := if k.left then rotate L transform angleStep ⟨0, 1, 0⟩ else transform
  let transform := if k.f then rotate L transform angleStep ⟨0, 0, 1⟩ else transform
  let transform := if k.g then rotate L transform angleStep ⟨0, 0, -1⟩ else transform
  transform

/-- The accumulated transform after a sequence of frames, one `Keys` value per iteration
of the render loop, starting from `prev_transform`. -/
def runFrames (L : ScalarFns α) (prev_transform : Mat4 α) : List Keys → Mat4 α
  | [] => prev_transform
  | k :: ks => runFrames L (frameUpdate L prev_transform k) ks

end Frame

/-! ## Geometry tables (lines 116-139 and 167-172) -/

section Geometry

variable {α : Type} [Field α]

/-- The array `float vertices[]`: eight corners, three floats each. -/
def vertices : List α :=
  [ 0.3, 0.3, 0.3,
    0.3, 0.3, -0.3,
    0.3, -0.3, 0.3,
    0.3, -0.3, -0.3,
    -0.3, 0.3, 0.3,
    -0.3, 0.3, -0.3,
    -0.3, -0.3, 0.3,
    -0.3, -0.3, -0.3 ]

/-- Array read `vertices[i]`. -/
def vertexAt (i : ℕ) : α := (vertices : List α).getD i 0

end Geometry

/-- The array `unsigned int indices[]`: twelve triangles. -/
def indices : List ℕ :=
  [ 0, 1, 2,
    1, 2, 3,
    0, 1, 4,
    1, 4, 5,
    4, 5, 6,
    5, 6, 7,
    2, 6, 7,
    2, 3, 7,
    0, 2, 6,
    0, 4, 6,
    1, 3, 7,
    1, 5, 7 ]

/-- The array `int side1[]`. -/
def side1 : List ℕ := [0, 1, 2, 3]
/-- The array `int side2[]`. -/
def side2 : List ℕ := [0, 1, 4, 5]
/-- The array `int side3[]`. -/
def side3 : List ℕ := [4, 5, 6, 7]
/-- The array `int side4[]`. -/
def side4 : List ℕ := [2, 3, 6, 7]
/-- The array `int side5[]`. -/
def side5 : List ℕ := [0, 2, 4, 6]
/-- The array `int side6[]`. -/
def side6 : List ℕ := [1, 3, 5, 7]

/-- The six corner lists in source order, `side1` first. -/
def sides : List (List ℕ) := [side1, side2, side3, side4, side5, side6]

/-- Array read `side[i]`. -/
def sideAt (side : List ℕ) (i : ℕ) : ℕ := side.getD i 0

/-- Size in bytes of a `float`, the unit of the byte offsets passed to `glDrawElements`. -/
def sizeofFloat : ℕ := 4

/-- Size in bytes of one `GL_UNSIGNED_INT` element of the index buffer. -/
def sizeofUnsignedInt : ℕ := 4

/-! ## The rest of the frame (lines 237-278) -/

/-- One `glUniform4f(vertexColorLocation, ..)` followed by
`glDrawElements(GL_TRIANGLES, count, GL_UNSIGNED_INT, (void*)offset)`. -/
structure DrawCall (α : Type) where
  /-- The colour uploaded to `ourColor` just before the draw. -/
  color : Vec4 α
  /-- Number of indices drawn. -/
  count : ℕ
  /-- Byte offset into the bound element buffer. -/
  offset : ℕ
deriving DecidableEq, Repr

/-- The entries of `indices` that a draw call reads from the element buffer. -/
def DrawCall.drawnIndices {α : Type} (d : DrawCall α) : List ℕ :=
  (indices.drop (d.offset / sizeofUnsignedInt)).take d.count

/-- Everything one iteration of the render loop computes from `prev_transform` and the
keys. (The `view` and `projection` uniforms are constants of the program and are left
out.) -/
structure Frame (α : Type) where
  /-- The value stored into `prev_transform` for the next iteration, which is also the
  `model` uniform uploaded. -/
  transform : Mat4 α
  /-- The array `news`. -/
  news : List (Vec4 α)
  /-- The array `zsums` after `std::sort`. -/
  zsums : List α
  /-- The draw calls, in the order issued. -/
  draws : List (DrawCall α)

section Corners

variable {α : Type} [Field α]

/-- Lines 239-248: the eight corners as homogeneous points with `w = 1`, multiplied by
`transform`, collected in `news`. -/
def cornerTransforms (transform : Mat4 α) : List (Vec4 α) :=
  let new1 := transform.mulVec ⟨vertexAt 0, vertexAt 1, vertexAt 2, 1⟩
  let new2 := transform.mulVec ⟨vertexAt 3, vertexAt 4, vertexAt 5, 1⟩
  let new3 := transform.mulVec ⟨vertexAt 6, vertexAt 7, vertexAt 8, 1⟩
  let new4 := transform.mulVec ⟨vertexAt 9, vertexAt 10, vertexAt 11, 1⟩
  let new5 := transform.mulVec ⟨vertexAt 12, vertexAt 13, vertexAt 14, 1⟩
  let new6 := transform.mulVec ⟨vertexAt 15, vertexAt 16, vertexAt 17, 1⟩
  let new7 := transform.mulVec ⟨vertexAt 18, vertexAt 19, vertexAt 20, 1⟩
  let new8 := transform.mulVec ⟨vertexAt 21, vertexAt 22, vertexAt 23, 1⟩
  [new1, new2, new3, new4, new5, new6, new7, new8]

/-- Array read `news[i]`. -/
def newsAt (news : List (Vec4 α)) (i : ℕ) : Vec4 α := news.getD i ⟨0, 0, 0, 0⟩

/-- The right-hand side of lines 250-255 for one face:
`news[side[0]][2] + news[side[1]][2] + news[side[2]][2]`. -/
def zsum (news : List (Vec4 α)) (side : List ℕ) : α :=
  (newsAt news (sideAt side 0)).z + (newsAt news (sideAt side 1)).z
    + (newsAt news (sideAt side 2)).z

/-- Lines 250-257: the array `zsums` before it is sorted. -/
def depthSums (news : List (Vec4 α)) : List α :=
  let zsum1 := zsum news side1
  let zsum2 := zsum news side2
  let zsum3 := zsum news side3
  let zsum4 := zsum news side4
  let zsum5 := zsum news side5
  let zsum6 := zsum news side6
  [zsum1, zsum2, zsum3, zsum4, zsum5, zsum6]

/-- The depth key of face `i` (1 to 6) that a frame with the given `transform` computes,
i.e. `zsum1` .. `zsum6` before sorting. -/
def depthKey (transform : Mat4 α) (i : ℕ) : α :=
  (depthSums (cornerTransforms transform)).getD (i - 1) 0

/-- Lines 262-278: the six colour uploads and draws. The sorted array is in scope at this
point of the source, hence the argument; no statement reads it. -/
def drawCalls (_zsums : List α) : List (DrawCall α) :=
  [ ⟨⟨1, 0, 0, 1⟩, 6, 0⟩,
    ⟨⟨0, 1, 0, 1⟩, 6, 6 * sizeofFloat⟩,
    ⟨⟨1, 0.7, 0, 1⟩, 6, 12 * sizeofFloat⟩,
    ⟨⟨0, 0, 1, 1⟩, 6, 18 * sizeofFloat⟩,
    ⟨⟨1, 1, 1, 1⟩, 6, 24 * sizeofFloat⟩,
    ⟨⟨1, 1, 0, 1⟩, 6, 30 * sizeofFloat⟩ ]

end Corners

section Render

variable {α : Type} [LinearOrderedField α]

/-- Line 258, `std::sort(zsums, zsums + 6)`: ascending sort of the six values. -/
def sortDepthSums (zsums : List α) : List α :=
  zsums.insertionSort (fun a b => a ≤ b)

/-- One iteration of the render loop, lines 197-278. -/
def renderFrame (L : ScalarFns α) (prev_transform : Mat4 α) (k : Keys) : Frame α :=
  let transform := frameUpdate L prev_transform k
  let news := cornerTransforms transform
  let zsums := sortDepthSums (depthSums news)
  { transform := transform, news := news, zsums := zsums, draws := drawCalls zsums }

end Render

/-! ## Start-up, render loop and exit code of `main` -/

/-- Outcomes of the external calls made before the render loop. -/
structure Startup where
  /-- Whether `glfwCreateWindow` returned a non-null window. -/
  windowCreated : Bool
  /-- Whether `gladLoadGLLoader` succeeded. -/
  gladLoaded : Bool
  /-- The value of `GL_COMPILE_STATUS` for the vertex shader. -/
  vertexCompiled : Bool
  /-- The value of `GL_COMPILE_STATUS` for the fragment shader. -/
  fragmentCompiled : Bool
  /-- The value of `GL_LINK_STATUS` for the program. -/
  programLinked : Bool
  /-- The text `glGetShaderInfoLog` gives for the vertex shader. -/
  vertexLog : String
  /-- The text `glGetShaderInfoLog` gives for the fragment shader. -/
  fragmentLog : String
  /-- The text `glGetProgramInfoLog` gives. -/
  linkLog : String

/-- What the windowing library reports during one iteration of the render loop. -/
structure FrameEvents where
  /-- Whether escape is pressed when `processInput` runs; it then sets the close flag. -/
  escape : Bool
  /-- The six rotation keys. -/
  keys : Keys
  /-- Whether `glfwPollEvents` at the end of the iteration records a close request. -/
  closeRequested : Bool

/-- Whether an iteration leaves the close flag of the window set. -/
def FrameEvents.closes (e : FrameEvents) : Bool := e.escape || e.closeRequested

/-- The observable result of running `main` against a finite trace of events. -/
structure Outcome (α : Type) where
  /-- The value returned by `main`, or `none` while the loop is still running when the
  trace ends. -/
  exitCode : Option ℤ
  /-- Lines written to `std::cout`. -/
  stdout : List String
  /-- Whether control reached the `while` statement. -/
  loopReached : Bool
  /-- The iterations of the render loop that ran. -/
  frames : List (Frame α)

section Main

variable {α : Type} [LinearOrderedField α]

/-- The render loop `while (!glfwWindowShouldClose(window))`, lines 181-289:
`shouldClose` is the close flag tested at the top. Returns the frames rendered and whether
the loop was left (`false`: the trace ran out with the window still open). -/
def renderLoop (L : ScalarFns α) : Bool → Mat4 α → List FrameEvents → List (Frame α) × Bool
  | true, _, _ => ([], true)
  | false, _, [] => ([], false)
  | false, prev_transform, e :: es =>
    let fr := renderFrame L prev_transform e.keys
    let rest := renderLoop L e.closes fr.transform es
    (fr :: rest.1, rest.2)

/-- Lines 84-110: the three shader status checks, each of which only prints. -/
def shaderMessages (s : Startup) : List String :=
  (if s.vertexCompiled then [] else ["ERROR::SHADER::VERTEX::COMPILATION_FAILED\n" ++ s.vertexLog])
    ++ (if s.fragmentCompiled then []
        else ["ERROR::SHADER::FRAGMENT::COMPILATION_FAILED\n" ++ s.fragmentLog])
    ++ (if s.programLinked then [] else ["ERROR::SHADER::PROGRAM::LINKING_FAILED\n" ++ s.linkLog])

/-- The function `main`: start-up checks, render loop from the identity transform with the
close flag of a fresh window (not set), then `return 0`. -/
def main (L : ScalarFns α) (s : Startup) (events : List FrameEvents) : Outcome α :=
  if !s.windowCreated then
    { exitCode := some (-1), stdout := ["Failed to create GLFW window"], loopReached := false,
      frames := [] }
  else if !s.gladLoaded then
    { exitCode := some (-1), stdout := ["Failed to initialize GLAD"], loopReached := false,
      frames := [] }
  else
    let out := shaderMessages s
    let prev_transform : Mat4 α := Mat4.identity
    let run := renderLoop L false prev_transform events
    { exitCode := if run.2 then some 0 else none, stdout := out, loopReached := true,
      frames := run.1 }

end Main

/-! ## Notions used to state the properties -/

/-- The six rotation keys, in the order in which `main` tests them. -/
inductive Key where
  | up | down | right | left | f | g
deriving DecidableEq, Repr

/-- The key state in which exactly the given key is held. -/
def Keys.only : Key → Keys
  | .up => ⟨true, false, false, false, false, false⟩
  | .down => ⟨false, true, false, false, false, false⟩
  | .right => ⟨false, false, true, false, false, false⟩
  | .left => ⟨false, false, false, true, false, false⟩
  | .f => ⟨false, false, false, false, true, false⟩
  | .g => ⟨false, false, false, false, false, true⟩

/-- Whether a key is held in a key state. -/
def Keys.held (k : Keys) : Key → Bool
  | .up => k.up
  | .down => k.down
  | .right => k.right
  | .left => k.left
  | .f => k.f
  | .g => k.g

/-- The six keys in the fixed enumeration order: pitch-up, pitch-down, yaw-right, yaw-left,
roll F, roll G. -/
def keyOrder : List Key := [.up, .down, .right, .left, .f, .g]

/-- The opposite-direction key of each of the pairs UP/DOWN, RIGHT/LEFT, F/G. -/
def Key.opposite : Key → Key
  | .up => .down
  | .down => .up
  | .right => .left
  | .left => .right
  | .f => .g
  | .g => .f

section Notions

variable {α : Type} [Field α]

/-- The signed unit axis of each key: UP `+X`, DOWN `-X`, RIGHT `-Y`, LEFT `+Y`, F `+Z`,
G `-Z`. -/
def Key.axis : Key → Vec3 α
  | .up => ⟨1, 0, 0⟩
  | .down => ⟨-1, 0, 0⟩
  | .right => ⟨0, -1, 0⟩
  | .left => ⟨0, 1, 0⟩
  | .f => ⟨0, 0, 1⟩
  | .g => ⟨0, 0, -1⟩

/-- The eight cube corners `(x, y, z)` with `x, y, z` in `{+0.3, -0.3}`, in the order in
which `vertices` lists them. -/
def cubeCorners : List (Vec3 α) :=
  [⟨0.3, 0.3, 0.3⟩, ⟨0.3, 0.3, -0.3⟩, ⟨0.3, -0.3, 0.3⟩, ⟨0.3, -0.3, -0.3⟩,
    ⟨-0.3, 0.3, 0.3⟩, ⟨-0.3, 0.3, -0.3⟩, ⟨-0.3, -0.3, 0.3⟩, ⟨-0.3, -0.3, -0.3⟩]

/-- The opposite vector. -/
def Vec3.neg (v : Vec3 α) : Vec3 α := ⟨-v.x, -v.y, -v.z⟩

/-- The rotation matrix of the angle with cosine `c` and sine `s` about the unit axis `n`
(Rodrigues formula `c I + s [n]x + (1 - c) n nT`), as a homogeneous 4x4 matrix. -/
def axisRotation (c s : α) (n : Vec3 α) : Mat4 α :=
  ⟨⟨c + (1 - c) * n.x * n.x, (1 - c) * n.x * n.y + s * n.z, (1 - c) * n.x * n.z - s * n.y, 0⟩,
   ⟨(1 - c) * n.y * n.x - s * n.z, c + (1 - c) * n.y * n.y, (1 - c) * n.y * n.z + s * n.x, 0⟩,
   ⟨(1 - c) * n.z * n.x + s * n.y, (1 - c) * n.z * n.y - s * n.x, c + (1 - c) * n.z * n.z, 0⟩,
   ⟨0, 0, 0, 1⟩⟩

/-- The upper-left 3x3 block of a transform, rows by columns. -/
def Mat4.block3 (m : Mat4 α) : Matrix (Fin 3) (Fin 3) α :=
  !![m.c0.x, m.c1.x, m.c2.x; m.c0.y, m.c1.y, m.c2.y; m.c0.z, m.c1.z, m.c2.z]

/-- A rigid rotation with identity translation: the upper-left 3x3 block is orthonormal
(transpose times itself is the identity), the translation column is `(0,0,0,1)` and the
last row is `(0,0,0,1)`. -/
def Mat4.IsRigidRotation (m : Mat4 α) : Prop :=
  m.block3.transpose * m.block3 = 1 ∧ m.c3 = ⟨0, 0, 0, 1⟩ ∧
    m.c0.w = 0 ∧ m.c1.w = 0 ∧ m.c2.w = 0

instance [DecidableEq α] (m : Mat4 α) : Decidable m.IsRigidRotation := by
  unfold Mat4.IsRigidRotation
  infer_instance

/-- Dot product of the `xyz` parts of two columns. -/
def Vec4.dot3 (u v : Vec4 α) : α :=
  u.x * v.x + u.y * v.y + u.z * v.z

/-- Determinant of the upper-left 3x3 block. -/
def Mat4.det3 (m : Mat4 α) : α :=
  m.c0.x * (m.c1.y * m.c2.z - m.c1.z * m.c2.y) - m.c1.x * (m.c0.y * m.c2.z - m.c0.z * m.c2.y)
    + m.c2.x * (m.c0.y * m.c1.z - m.c0.z * m.c1.y)

/-- Cube corner `i` (0 to 7) as a homogeneous point with `w = 1`. -/
def cornerPoint (i : ℕ) : Vec4 α :=
  ⟨(cubeCorners.getD i ⟨0, 0, 0⟩ : Vec3 α).x, (cubeCorners.getD i ⟨0, 0, 0⟩ : Vec3 α).y,
    (cubeCorners.getD i ⟨0, 0, 0⟩ : Vec3 α).z, 1⟩

/-- The Z component of transformed corner `i`. -/
def cornerDepth (T : Mat4 α) (i : ℕ) : α := (T.mulVec (cornerPoint i)).z

/-- The corner list of face `f` (1 to 6). -/
def sideOf (f : ℕ) : List ℕ := sides.getD (f - 1) []

/-- A rotation `S` that maps the cube onto itself: `S` is a rigid rotation of determinant
one, it sends corner `i` to corner `π i`, and it carries the corners of face `f` onto the
corners of face `σ f`. -/
def IsCubeSymmetry (S : Mat4 α) (π σ : ℕ → ℕ) : Prop :=
  S.IsRigidRotation ∧ S.det3 = 1 ∧
    (∀ i, i < 8 → S.mulVec (cornerPoint i) = cornerPoint (π i) ∧ π i < 8) ∧
    (∀ f, 1 ≤ f → f ≤ 6 → (1 ≤ σ f ∧ σ f ≤ 6) ∧ ((sideOf f).map π).Perm (sideOf (σ f)))

/-- The quarter turn about the Y axis, `(x, y, z) ↦ (z, y, -x)`. -/
def quarterTurnY : Mat4 α :=
  ⟨⟨0, 0, -1, 0⟩, ⟨0, 1, 0, 0⟩, ⟨1, 0, 0, 0⟩, ⟨0, 0, 0, 1⟩⟩

/-- The corner permutation of `quarterTurnY`. -/
def quarterTurnYCorners (i : ℕ) : ℕ := [1, 5, 3, 7, 0, 4, 2, 6].getD i i

/-- The face permutation of `quarterTurnY`: faces 2 and 4 (`y = +0.3`, `y = -0.3`) are
kept, faces 1, 6, 3, 5 are cycled. -/
def quarterTurnYFaces (f : ℕ) : ℕ := [6, 2, 5, 4, 1, 3].getD (f - 1) f

/-- Corner `i` as the vertex shader receives it: the three consecutive floats
`vertices[3 i]`, `vertices[3 i + 1]`, `vertices[3 i + 2]` (attribute 0, stride
`3 * sizeof(float)`). -/
def vertexTriple (i : ℕ) : Vec3 α :=
  ⟨vertexAt (3 * i), vertexAt (3 * i + 1), vertexAt (3 * i + 2)⟩

end Notions

/-- The corner indices of triangle `t` (0 to 11): entries `3 t`, `3 t + 1`, `3 t + 2` of
`indices`. -/
def triangle (t : ℕ) : List ℕ := (indices.drop (3 * t)).take 3

/-- The corners that the two triangles `2 k` and `2 k + 1` of face `k` (0 to 5) have in
common. -/
def sharedCorners (k : ℕ) : List ℕ :=
  (triangle (2 * k)).filter fun i => decide (i ∈ triangle (2 * k + 1))

section OrderedNotions

variable {α : Type} [LinearOrderedField α]

/-- The number of coordinates in which two points differ. -/
def Vec3.differing (p q : Vec3 α) : ℕ :=
  (if p.x = q.x then 0 else 1) + (if p.y = q.y then 0 else 1) + (if p.z = q.z then 0 else 1)

/-- The point `p` lies in the polygon spanned by the corners listed in `idx`: it is a convex
combination of them, with the weight of corner `i` given by `w i`. -/
def InHull (idx : List ℕ) (p : Vec3 α) : Prop :=
  ∃ w : ℕ → α, (∀ i ∈ idx, 0 ≤ w i) ∧ (idx.map w).sum = 1 ∧
    p = ⟨(idx.map fun i => w i * (vertexTriple i : Vec3 α).x).sum,
         (idx.map fun i => w i * (vertexTriple i : Vec3 α).y).sum,
         (idx.map fun i => w i * (vertexTriple i : Vec3 α).z).sum⟩

end OrderedNotions

/-! ## Theorems -/

section Theorems

variable {α : Type} [Field α]

theorem frameUpdate_none (L : ScalarFns α) (T : Mat4 α) : frameUpdate L T Keys.none = T := rfl

theorem runFrames_replicate_none (L : ScalarFns α) (T : Mat4 α) (N : ℕ) :
    runFrames L T (List.replicate N Keys.none) = T := by
  induction N with
  | zero => rfl
  | succ n ih => simpa [List.replicate_succ, runFrames, frameUpdate_none] using ih

/-- C1: for every transform `T` and every `N`, running `N` frames in which none of the six
rotation keys is held leaves the accumulated transform equal to `T`; in particular 100
such frames do. -/
theorem C1_idle_frames_keep_transform (L : ScalarFns α) (T : Mat4 α) :
    (∀ N : ℕ, runFrames L T (List.replicate N Keys.none) = T) ∧
      runFrames L T (List.replicate 100 Keys.none) = T :=
  ⟨runFrames_replicate_none L T, runFrames_replicate_none L T 100⟩

theorem block3_orthonormal_iff (m : Mat4 α) :
    m.block3.transpose * m.block3 = 1 ↔
      (m.c0.dot3 m.c0 = 1 ∧ m.c1.dot3 m.c1 = 1 ∧ m.c2.dot3 m.c2 = 1) ∧
        (m.c0.dot3 m.c1 = 0 ∧ m.c0.dot3 m.c2 = 0 ∧ m.c1.dot3 m.c2 = 0) := by
  constructor
  · intro h
    have e00 := congrFun (congrFun h 0) 0
    have e11 := congrFun (congrFun h 1) 1
    have e22 := congrFun (congrFun h 2) 2
    have e01 := congrFun (congrFun h 0) 1
    have e02 := congrFun (congrFun h 0) 2
    have e12 := congrFun (congrFun h 1) 2
    simp [Matrix.mul_apply, Fin.sum_univ_three, Mat4.block3, Matrix.transpose_apply] at e00 e11 e22 e01 e02 e12
    exact ⟨⟨e00, e11, e22⟩, e01, e02, e12⟩
  · rintro ⟨⟨e00, e11, e22⟩, e01, e02, e12⟩
    simp only [Vec4.dot3] at e00 e11 e22 e01 e02 e12
    ext i j
    rw [Matrix.mul_apply]
    simp only [Matrix.transpose_apply, Fin.sum_univ_three]
    fin_cases i <;> fin_cases j <;> simp [Mat4.block3] <;>
      first
        | exact e00 | exact e11 | exact e22 | exact e01 | exact e02 | exact e12
        | linear_combination e01 | linear_combination e02 | linear_combination e12

/-! ### Rotations about a unit axis -/

theorem ratFns_exact : ratFns.Exact :=
  ⟨fun _ => by norm_num [ratFns], rfl⟩

theorem normalize_unit (L : ScalarFns α) (hL : L.Exact) (v : Vec3 α) (hv : v.dot v = 1) :
    normalize L v = v := by
  unfold normalize
  rw [hv, hL.inversesqrt_one]
  ext <;> simp [Vec3.scale]

/-- About a unit axis, `glm::rotate` multiplies `m` on the right by the rotation matrix. -/
theorem rotate_eq_mul_axisRotation (L : ScalarFns α) (hL : L.Exact) (m : Mat4 α) (a : α)
    (v : Vec3 α) (hv : v.dot v = 1) :
    rotate L m a v = m.mul (axisRotation (L.cos a) (L.sin a) v) := by
  simp only [rotate, normalize_unit L hL v hv]
  ext <;> simp only [Mat4.mul, Mat4.mulVec, Vec4.add, Vec4.scale, Vec3.lscale, axisRotation] <;>
    ring

theorem dot3_mulVec (m : Mat4 α) (u v : Vec4 α)
    (hd : m.c0.dot3 m.c0 = 1 ∧ m.c1.dot3 m.c1 = 1 ∧ m.c2.dot3 m.c2 = 1)
    (ho : m.c0.dot3 m.c1 = 0 ∧ m.c0.dot3 m.c2 = 0 ∧ m.c1.dot3 m.c2 = 0)
    (hu : u.w = 0) (hv : v.w = 0) :
    (m.mulVec u).dot3 (m.mulVec v) = u.dot3 v := by
  obtain ⟨e00, e11, e22⟩ := hd
  obtain ⟨e01, e02, e12⟩ := ho
  simp only [Vec4.dot3] at e00 e11 e22 e01 e02 e12
  simp only [Vec4.dot3, Mat4.mulVec, Vec4.add, Vec4.scale, hu, hv]
  linear_combination (u.x * v.x) * e00 + (u.y * v.y) * e11 + (u.z * v.z) * e22
    + (u.x * v.y + u.y * v.x) * e01 + (u.x * v.z + u.z * v.x) * e02
    + (u.y * v.z + u.z * v.y) * e12

/-- The product of two rigid rotations is a rigid rotation. -/
theorem isRigidRotation_mul (a b : Mat4 α) (ha : a.IsRigidRotation) (hb : b.IsRigidRotation) :
    (a.mul b).IsRigidRotation := by
  obtain ⟨hao, ha3, ha0, ha1, ha2⟩ := ha
  obtain ⟨hbo, hb3, hb0, hb1, hb2⟩ := hb
  rw [block3_orthonormal_iff] at hao hbo
  obtain ⟨had, hao⟩ := hao
  obtain ⟨⟨b00, b11, b22⟩, b01, b02, b12⟩ := hbo
  refine ⟨(block3_orthonormal_iff _).2 ⟨⟨?_, ?_, ?_⟩, ?_, ?_, ?_⟩, ?_, ?_, ?_, ?_⟩
  · simpa [Mat4.mul] using (dot3_mulVec a b.c0 b.c0 had hao hb0 hb0).trans b00
  · simpa [Mat4.mul] using (dot3_mulVec a b.c1 b.c1 had hao hb1 hb1).trans b11
  · simpa [Mat4.mul] using (dot3_mulVec a b.c2 b.c2 had hao hb2 hb2).trans b22
  · simpa [Mat4.mul] using (dot3_mulVec a b.c0 b.c1 had hao hb0 hb1).trans b01
  · simpa [Mat4.mul] using (dot3_mulVec a b.c0 b.c2 had hao hb0 hb2).trans b02
  · simpa [Mat4.mul] using (dot3_mulVec a b.c1 b.c2 had hao hb1 hb2).trans b12
  · simp only [Mat4.mul, hb3, Mat4.mulVec, Vec4.add, Vec4.scale]
    rw [ha3]
    ext <;> simp
  · simp [Mat4.mul, Mat4.mulVec, Vec4.add, Vec4.scale, ha0, ha1, ha2, hb0]
  · simp [Mat4.mul, Mat4.mulVec, Vec4.add, Vec4.scale, ha0, ha1, ha2, hb1]
  · simp [Mat4.mul, Mat4.mulVec, Vec4.add, Vec4.scale, ha0, ha1, ha2, hb2]

/-- The rotation matrix about a unit axis is a rigid rotation. -/
theorem axisRotation_isRigidRotation (c s : α) (hcs : c * c + s * s = 1) (n : Vec3 α)
    (hn : n.dot n = 1) : (axisRotation c s n).IsRigidRotation := by
  simp only [Vec3.dot] at hn
  refine ⟨(block3_orthonormal_iff _).2 ⟨⟨?_, ?_, ?_⟩, ?_, ?_, ?_⟩, rfl, rfl, rfl, rfl⟩ <;>
    simp only [Vec4.dot3, axisRotation]
  · linear_combination (s ^ 2 + (1 - c) ^ 2 * n.x * n.x) * hn + (1 - n.x * n.x) * hcs
  · linear_combination (s ^ 2 + (1 - c) ^ 2 * n.y * n.y) * hn + (1 - n.y * n.y) * hcs
  · linear_combination (s ^ 2 + (1 - c) ^ 2 * n.z * n.z) * hn + (1 - n.z * n.z) * hcs
  · linear_combination ((1 - c) ^ 2 * n.x * n.y) * hn - (n.x * n.y) * hcs
  · linear_combination ((1 - c) ^ 2 * n.x * n.z) * hn - (n.x * n.z) * hcs
  · linear_combination ((1 - c) ^ 2 * n.y * n.z) * hn - (n.y * n.z) * hcs

theorem rotate_isRigidRotation (L : ScalarFns α) (hL : L.Exact) (m : Mat4 α) (a : α)
    (v : Vec3 α) (hv : v.dot v = 1) (hm : m.IsRigidRotation) :
    (rotate L m a v).IsRigidRotation := by
  rw [rotate_eq_mul_axisRotation L hL m a v hv]
  exact isRigidRotation_mul _ _ hm
    (axisRotation_isRigidRotation _ _ (hL.cos_sq_add_sin_sq a) v hv)

theorem identity_isRigidRotation : (Mat4.identity : Mat4 α).IsRigidRotation := by
  refine ⟨(block3_orthonormal_iff _).2 ?_, rfl, rfl, rfl, rfl⟩
  simp [Vec4.dot3, Mat4.identity]

theorem frameUpdate_isRigidRotation (L : ScalarFns α) (hL : L.Exact) (T : Mat4 α) (k : Keys)
    (hT : T.IsRigidRotation) : (frameUpdate L T k).IsRigidRotation := by
  have step : ∀ (b : Bool) (m : Mat4 α) (v : Vec3 α), v.dot v = 1 → m.IsRigidRotation →
      (if b then rotate L m angleStep v else m).IsRigidRotation := by
    intro b m v hv hm
    cases b
    · simpa using hm
    · simpa using rotate_isRigidRotation L hL m angleStep v hv hm
  unfold frameUpdate
  refine step _ _ _ (by simp [Vec3.dot]) (step _ _ _ (by simp [Vec3.dot]) (step _ _ _
    (by simp [Vec3.dot]) (step _ _ _ (by simp [Vec3.dot]) (step _ _ _ (by simp [Vec3.dot])
    (step _ _ _ (by simp [Vec3.dot]) hT)))))

theorem runFrames_isRigidRotation (L : ScalarFns α) (hL : L.Exact) (ks : List Keys) :
    ∀ T : Mat4 α, T.IsRigidRotation → (runFrames L T ks).IsRigidRotation := by
  induction ks with
  | nil => intro T hT; exact hT
  | cons k ks ih => intro T hT; exact ih _ (frameUpdate_isRigidRotation L hL T k hT)

/-- C2: with exact arithmetic, after any finite sequence of frames starting from the identity
the accumulated transform is a rigid rotation (orthonormal upper-left 3x3 block, translation
column and last row those of the identity); and one frame update, whatever the 64
combinations of held keys, maps a rigid rotation to a rigid rotation. -/
theorem C2_rigid_rotation_invariant (L : ScalarFns α) (hL : L.Exact) :
    (∀ ks : List Keys, (runFrames L Mat4.identity ks).IsRigidRotation) ∧
      (∀ (T : Mat4 α) (k : Keys), T.IsRigidRotation → (frameUpdate L T k).IsRigidRotation) :=
  ⟨fun ks => runFrames_isRigidRotation L hL ks _ identity_isRigidRotation,
    fun T k hT => frameUpdate_isRigidRotation L hL T k hT⟩

/-- The hypothesis of `C2_rigid_rotation_invariant` holds for the stand-in scalars over `ℚ`
and for a concrete rigid rotation (a quarter turn about Y), and the conclusions follow. -/
theorem C2_rigid_rotation_invariant_witness :
    ratFns.Exact ∧
      (runFrames ratFns Mat4.identity
        [⟨true, false, true, false, false, true⟩, ⟨false, false, false, true, true, false⟩,
          Keys.none]).IsRigidRotation ∧
      (⟨⟨0, 0, -1, 0⟩, ⟨0, 1, 0, 0⟩, ⟨1, 0, 0, 0⟩, ⟨0, 0, 0, 1⟩⟩ : Mat4 ℚ).IsRigidRotation ∧
      (frameUpdate ratFns ⟨⟨0, 0, -1, 0⟩, ⟨0, 1, 0, 0⟩, ⟨1, 0, 0, 0⟩, ⟨0, 0, 0, 1⟩⟩
        ⟨true, false, false, true, false, false⟩).IsRigidRotation :=
  have hT : (⟨⟨0, 0, -1, 0⟩, ⟨0, 1, 0, 0⟩, ⟨1, 0, 0, 0⟩, ⟨0, 0, 0, 1⟩⟩ :
      Mat4 ℚ).IsRigidRotation :=
    ⟨(block3_orthonormal_iff _).2 (by simp [Vec4.dot3]), rfl, rfl, rfl, rfl⟩
  ⟨ratFns_exact, (C2_rigid_rotation_invariant ratFns ratFns_exact).1 _, hT,
    (C2_rigid_rotation_invariant ratFns ratFns_exact).2 _ _ hT⟩

/-- The real cosine, sine and reciprocal square root are exact. -/
theorem real_exact : (ScalarFns.mk Real.cos Real.sin fun x => (Real.sqrt x)⁻¹).Exact :=
  ⟨fun a => by
      have h := Real.cos_sq_add_sin_sq a
      simpa [sq] using h,
    by simp⟩

/-! ### Single keys and round trips -/

theorem frameUpdate_only (L : ScalarFns α) (T : Mat4 α) (k : Key) :
    frameUpdate L T (Keys.only k) = rotate L T angleStep k.axis := by
  cases k <;> rfl

theorem axis_unit (k : Key) : (k.axis : Vec3 α).dot k.axis = 1 := by
  cases k <;> simp [Key.axis, Vec3.dot]

theorem axis_opposite (k : Key) : (k.opposite.axis : Vec3 α) = (k.axis : Vec3 α).neg := by
  cases k <;> simp [Key.axis, Key.opposite, Vec3.neg]

theorem mul_assoc_mat4 (a b c : Mat4 α) : (a.mul b).mul c = a.mul (b.mul c) := by
  ext <;> simp only [Mat4.mul, Mat4.mulVec, Vec4.add, Vec4.scale] <;> ring

theorem mul_identity (a : Mat4 α) : a.mul Mat4.identity = a := by
  ext <;> simp [Mat4.mul, Mat4.mulVec, Vec4.add, Vec4.scale, Mat4.identity]

/-- Rotating about `n` and then about `-n` by the same angle is the identity. -/
theorem axisRotation_mul_neg (c s : α) (hcs : c * c + s * s = 1) (n : Vec3 α)
    (hn : n.dot n = 1) :
    (axisRotation c s n).mul (axisRotation c s n.neg) = Mat4.identity := by
  simp only [Vec3.dot] at hn
  ext <;>
    simp only [Mat4.mul, Mat4.mulVec, Vec4.add, Vec4.scale, axisRotation, Vec3.neg,
      Mat4.identity]
  · linear_combination (s ^ 2 + (1 - c) ^ 2 * n.x * n.x) * hn + (1 - n.x * n.x) * hcs
  · linear_combination ((1 - c) ^ 2 * n.x * n.y) * hn - (n.x * n.y) * hcs
  · linear_combination ((1 - c) ^ 2 * n.x * n.z) * hn - (n.x * n.z) * hcs
  · ring1
  · linear_combination ((1 - c) ^ 2 * n.x * n.y) * hn - (n.x * n.y) * hcs
  · linear_combination (s ^ 2 + (1 - c) ^ 2 * n.y * n.y) * hn + (1 - n.y * n.y) * hcs
  · linear_combination ((1 - c) ^ 2 * n.y * n.z) * hn - (n.y * n.z) * hcs
  · ring1
  · linear_combination ((1 - c) ^ 2 * n.x * n.z) * hn - (n.x * n.z) * hcs
  · linear_combination ((1 - c) ^ 2 * n.y * n.z) * hn - (n.y * n.z) * hcs
  · linear_combination (s ^ 2 + (1 - c) ^ 2 * n.z * n.z) * hn + (1 - n.z * n.z) * hcs
  · ring1
  · ring1
  · ring1
  · ring1
  · ring1

theorem frameUpdate_opposite (L : ScalarFns α) (hL : L.Exact) (T : Mat4 α) (k : Key) :
    frameUpdate L (frameUpdate L T (Keys.only k)) (Keys.only k.opposite) = T := by
  rw [frameUpdate_only, frameUpdate_only,
    rotate_eq_mul_axisRotation L hL _ _ _ (axis_unit k),
    rotate_eq_mul_axisRotation L hL _ _ _ (axis_unit k.opposite), mul_assoc_mat4,
    axis_opposite, axisRotation_mul_neg _ _ (hL.cos_sq_add_sin_sq _) _ (axis_unit k),
    mul_identity]

theorem runFrames_append (L : ScalarFns α) (xs ys : List Keys) :
    ∀ T : Mat4 α, runFrames L T (xs ++ ys) = runFrames L (runFrames L T xs) ys := by
  induction xs with
  | nil => intro T; rfl
  | cons x xs ih => intro T; exact ih _

theorem runFrames_round_trip (L : ScalarFns α) (hL : L.Exact) (k : Key) (K : ℕ) :
    ∀ T : Mat4 α, runFrames L T
      (List.replicate K (Keys.only k) ++ List.replicate K (Keys.only k.opposite)) = T := by
  induction K with
  | zero => intro T; rfl
  | succ n ih =>
    intro T
    rw [List.replicate_succ, List.replicate_succ', List.cons_append, ← List.append_assoc]
    simp only [runFrames]
    rw [runFrames_append, ih]
    simp only [runFrames]
    exact frameUpdate_opposite L hL T k

/-- C3: with exact arithmetic, for every transform `T`, every `K` and every key, `K` frames
with only that key held followed by `K` frames with only its opposite key held return the
accumulated transform to `T`. Letting the key range over all six covers the three pairs
UP/DOWN, LEFT/RIGHT, F/G in both orders. -/
theorem C3_round_trip (L : ScalarFns α) (hL : L.Exact) (T : Mat4 α) (K : ℕ) (k : Key) :
    runFrames L T
      (List.replicate K (Keys.only k) ++ List.replicate K (Keys.only k.opposite)) = T :=
  runFrames_round_trip L hL k K T

/-- The round trip at a concrete input: three frames of RIGHT then three frames of LEFT,
from a quarter turn about Y, with the stand-in scalars over `ℚ`. -/
theorem C3_round_trip_witness :
    ratFns.Exact ∧
      runFrames ratFns (⟨⟨0, 0, -1, 0⟩, ⟨0, 1, 0, 0⟩, ⟨1, 0, 0, 0⟩, ⟨0, 0, 0, 1⟩⟩ : Mat4 ℚ)
        (List.replicate 3 (Keys.only Key.right) ++
          List.replicate 3 (Keys.only Key.right.opposite)) =
        ⟨⟨0, 0, -1, 0⟩, ⟨0, 1, 0, 0⟩, ⟨1, 0, 0, 0⟩, ⟨0, 0, 0, 1⟩⟩ :=
  ⟨ratFns_exact, C3_round_trip ratFns ratFns_exact _ 3 Key.right⟩

/-! ### The yaw-right scenario -/

theorem cornerTransforms_eq_map (m : Mat4 α) :
    cornerTransforms m = cubeCorners.map fun p => m.mulVec ⟨p.x, p.y, p.z, 1⟩ := by
  simp [cornerTransforms, cubeCorners, vertexAt, vertices]

/-- C4: with exact arithmetic, one frame from the identity with only RIGHT held yields the
rotation matrix of angle `0.0005` about the axis `(0,-1,0)`, which is the rotation about Y
by `-0.0005` (columns `(c,0,s,0)`, `(0,1,0,0)`, `(-s,0,c,0)`, `(0,0,0,1)` with `c`, `s` the
cosine and sine of `0.0005`), and the array `news` of that frame holds, for each of the
eight corners `(x,y,z)`, the point `(x*c - z*s, y, x*s + z*c, 1)`. -/
theorem C4_yaw_right_scenario (L : ScalarFns α) (hL : L.Exact) :
    frameUpdate L Mat4.identity (Keys.only Key.right)
        = axisRotation (L.cos angleStep) (L.sin angleStep) ⟨0, -1, 0⟩ ∧
      frameUpdate L Mat4.identity (Keys.only Key.right)
        = ⟨⟨L.cos angleStep, 0, L.sin angleStep, 0⟩, ⟨0, 1, 0, 0⟩,
            ⟨-L.sin angleStep, 0, L.cos angleStep, 0⟩, ⟨0, 0, 0, 1⟩⟩ ∧
      cornerTransforms (frameUpdate L Mat4.identity (Keys.only Key.right))
        = cubeCorners.map fun p =>
            ⟨p.x * L.cos angleStep - p.z * L.sin angleStep, p.y,
              p.x * L.sin angleStep + p.z * L.cos angleStep, 1⟩ := by
  have h1 : frameUpdate L Mat4.identity (Keys.only Key.right)
      = ⟨⟨L.cos angleStep, 0, L.sin angleStep, 0⟩, ⟨0, 1, 0, 0⟩,
          ⟨-L.sin angleStep, 0, L.cos angleStep, 0⟩, ⟨0, 0, 0, 1⟩⟩ := by
    rw [frameUpdate_only, rotate_eq_mul_axisRotation L hL _ _ _ (axis_unit Key.right)]
    ext <;> simp [Mat4.mul, Mat4.mulVec, Vec4.add, Vec4.scale, axisRotation, Mat4.identity,
      Key.axis]
  refine ⟨?_, h1, ?_⟩
  · rw [h1]
    ext <;> simp [axisRotation]
  · rw [h1, cornerTransforms_eq_map]
    refine List.map_congr_left fun p _ => ?_
    ext <;> simp [Mat4.mulVec, Vec4.add, Vec4.scale] <;> ring

/-- The yaw-right scenario evaluated with the stand-in scalars over `ℚ`. -/
theorem C4_yaw_right_scenario_witness :
    ratFns.Exact ∧
      frameUpdate ratFns Mat4.identity (Keys.only Key.right)
        = axisRotation (ratFns.cos angleStep) (ratFns.sin angleStep) ⟨0, -1, 0⟩ ∧
      frameUpdate ratFns Mat4.identity (Keys.only Key.right)
        = ⟨⟨ratFns.cos angleStep, 0, ratFns.sin angleStep, 0⟩, ⟨0, 1, 0, 0⟩,
            ⟨-ratFns.sin angleStep, 0, ratFns.cos angleStep, 0⟩, ⟨0, 0, 0, 1⟩⟩ ∧
      cornerTransforms (frameUpdate ratFns Mat4.identity (Keys.only Key.right))
        = cubeCorners.map fun p =>
            ⟨p.x * ratFns.cos angleStep - p.z * ratFns.sin angleStep, p.y,
              p.x * ratFns.sin angleStep + p.z * ratFns.cos angleStep, 1⟩ :=
  ⟨ratFns_exact, C4_yaw_right_scenario ratFns ratFns_exact⟩

/-! ### Composition side and composition order -/

/-- C5, as amended: with exact arithmetic, a frame in which exactly one rotation key is held
multiplies the running transform `T` on the right by the elementary rotation matrix `R` of
that key (angle `0.0005` about its signed axis): the new transform is `T * R`. -/
theorem C5_single_key_right_composition (L : ScalarFns α) (hL : L.Exact) (T : Mat4 α)
    (k : Key) :
    frameUpdate L T (Keys.only k)
      = T.mul (axisRotation (L.cos angleStep) (L.sin angleStep) k.axis) := by
  rw [frameUpdate_only, rotate_eq_mul_axisRotation L hL _ _ _ (axis_unit k)]

/-- The amended C5 at a concrete input: UP held, from a quarter turn about Y, with the
stand-in scalars over `ℚ`. -/
theorem C5_single_key_right_composition_witness :
    ratFns.Exact ∧
      frameUpdate ratFns (⟨⟨0, 0, -1, 0⟩, ⟨0, 1, 0, 0⟩, ⟨1, 0, 0, 0⟩, ⟨0, 0, 0, 1⟩⟩ : Mat4 ℚ)
          (Keys.only Key.up)
        = (⟨⟨0, 0, -1, 0⟩, ⟨0, 1, 0, 0⟩, ⟨1, 0, 0, 0⟩, ⟨0, 0, 0, 1⟩⟩ : Mat4 ℚ).mul
            (axisRotation (ratFns.cos angleStep) (ratFns.sin angleStep) Key.up.axis) :=
  ⟨ratFns_exact, C5_single_key_right_composition ratFns ratFns_exact _ Key.up⟩

/-- C5 as stated fails: over the reals, with `T` the quarter turn about Y and only UP held,
the new transform is not `R * T`. Its first column is the first column `(0,0,-1,0)` of `T`,
whereas the first column of `R * T` is `(0, sin 0.0005, -cos 0.0005, 0)`. -/
theorem C5_left_composition_counterexample :
    frameUpdate (ScalarFns.mk Real.cos Real.sin fun x => (Real.sqrt x)⁻¹)
        (⟨⟨0, 0, -1, 0⟩, ⟨0, 1, 0, 0⟩, ⟨1, 0, 0, 0⟩, ⟨0, 0, 0, 1⟩⟩ : Mat4 ℝ) (Keys.only Key.up)
      ≠ (axisRotation (Real.cos angleStep) (Real.sin angleStep) Key.up.axis).mul
          (⟨⟨0, 0, -1, 0⟩, ⟨0, 1, 0, 0⟩, ⟨1, 0, 0, 0⟩, ⟨0, 0, 0, 1⟩⟩ : Mat4 ℝ) := by
  intro h
  rw [frameUpdate_only, rotate_eq_mul_axisRotation _ real_exact _ _ _ (axis_unit Key.up)] at h
  have hy := congrArg (fun m : Mat4 ℝ => m.c0.y) h
  simp [Mat4.mul, Mat4.mulVec, Vec4.add, Vec4.scale, axisRotation, Key.axis] at hy
  have hpos : (0 : ℝ) < Real.sin angleStep := by
    apply Real.sin_pos_of_pos_of_lt_pi
    · norm_num [angleStep]
    · have := Real.pi_gt_three
      norm_num [angleStep]
      linarith
  rw [← hy] at hpos
  exact lt_irrefl _ hpos

theorem foldl_filter_eq {β γ : Type} (p : γ → Bool) (step : β → γ → β) (xs : List γ) :
    ∀ b : β, (xs.filter p).foldl step b
      = xs.foldl (fun acc x => if p x then step acc x else acc) b := by
  induction xs with
  | nil => intro b; rfl
  | cons x xs ih =>
    intro b
    cases hx : p x <;> simp [List.filter_cons, hx, ih]

/-- C6: for every previous transform and each of the 64 combinations of held keys, the new
transform is obtained from the previous one by applying, one after another, the steps
`glm::rotate(., 0.0005, axis)` of exactly the held keys, in the fixed order UP (`+X`),
DOWN (`-X`), RIGHT (`-Y`), LEFT (`+Y`), F (`+Z`), G (`-Z`); each such step is the frame
update with only that key held, and keys not held contribute no step. -/
theorem C6_fixed_composition_order (L : ScalarFns α) (T : Mat4 α) (k : Keys) :
    frameUpdate L T k
        = (keyOrder.filter k.held).foldl (fun M key => rotate L M angleStep key.axis) T ∧
      frameUpdate L T k
        = (keyOrder.filter k.held).foldl (fun M key => frameUpdate L M (Keys.only key)) T ∧
      (keyOrder.map fun key => (key.axis : Vec3 α))
        = [⟨1, 0, 0⟩, ⟨-1, 0, 0⟩, ⟨0, -1, 0⟩, ⟨0, 1, 0⟩, ⟨0, 0, 1⟩, ⟨0, 0, -1⟩] := by
  have h : frameUpdate L T k
      = (keyOrder.filter k.held).foldl (fun M key => rotate L M angleStep key.axis) T := by
    rw [foldl_filter_eq]
    rfl
  refine ⟨h, ?_, rfl⟩
  simp only [frameUpdate_only]
  exact h

/-! ### Depth keys -/

theorem mulVec_mul (a b : Mat4 α) (v : Vec4 α) : (a.mul b).mulVec v = a.mulVec (b.mulVec v) := by
  ext <;> simp only [Mat4.mul, Mat4.mulVec, Vec4.add, Vec4.scale] <;> ring

theorem cornerTransforms_getD (T : Mat4 α) (i : ℕ) (hi : i < 8) :
    newsAt (cornerTransforms T) i = T.mulVec (cornerPoint i) := by
  interval_cases i <;>
    simp [newsAt, cornerTransforms, cornerPoint, cubeCorners, vertexAt, vertices]

theorem depthSums_cornerTransforms (T : Mat4 α) :
    depthSums (cornerTransforms T)
      = [cornerDepth T 0 + cornerDepth T 1 + cornerDepth T 2,
          cornerDepth T 0 + cornerDepth T 1 + cornerDepth T 4,
          cornerDepth T 4 + cornerDepth T 5 + cornerDepth T 6,
          cornerDepth T 2 + cornerDepth T 3 + cornerDepth T 6,
          cornerDepth T 0 + cornerDepth T 2 + cornerDepth T 4,
          cornerDepth T 1 + cornerDepth T 3 + cornerDepth T 5] := by
  simp only [depthSums, zsum, side1, side2, side3, side4, side5, side6, sideAt,
    List.getD_cons_zero, List.getD_cons_succ, cornerDepth]
  rw [cornerTransforms_getD T 0 (by norm_num), cornerTransforms_getD T 1 (by norm_num),
    cornerTransforms_getD T 2 (by norm_num), cornerTransforms_getD T 3 (by norm_num),
    cornerTransforms_getD T 4 (by norm_num), cornerTransforms_getD T 5 (by norm_num),
    cornerTransforms_getD T 6 (by norm_num)]

/-- C9: for every transform `T` the six depth sums of a frame are, in order, the sums of the
Z components of `T` applied (as homogeneous points with `w = 1`) to corners `0,1,2`,
`0,1,4`, `4,5,6`, `2,3,6`, `0,2,4`, `1,3,5`, which are the first three entries of
`side1` .. `side6`; the fourth entry of a corner list does not enter the sum. -/
theorem C9_depth_key_definition (T : Mat4 α) :
    depthSums (cornerTransforms T)
        = [cornerDepth T 0 + cornerDepth T 1 + cornerDepth T 2,
            cornerDepth T 0 + cornerDepth T 1 + cornerDepth T 4,
            cornerDepth T 4 + cornerDepth T 5 + cornerDepth T 6,
            cornerDepth T 2 + cornerDepth T 3 + cornerDepth T 6,
            cornerDepth T 0 + cornerDepth T 2 + cornerDepth T 4,
            cornerDepth T 1 + cornerDepth T 3 + cornerDepth T 5] ∧
      (depthKey T 1 = cornerDepth T 0 + cornerDepth T 1 + cornerDepth T 2 ∧
        depthKey T 2 = cornerDepth T 0 + cornerDepth T 1 + cornerDepth T 4 ∧
        depthKey T 3 = cornerDepth T 4 + cornerDepth T 5 + cornerDepth T 6 ∧
        depthKey T 4 = cornerDepth T 2 + cornerDepth T 3 + cornerDepth T 6 ∧
        depthKey T 5 = cornerDepth T 0 + cornerDepth T 2 + cornerDepth T 4 ∧
        depthKey T 6 = cornerDepth T 1 + cornerDepth T 3 + cornerDepth T 5) ∧
      sides.map (List.take 3) = [[0, 1, 2], [0, 1, 4], [4, 5, 6], [2, 3, 6], [0, 2, 4], [1, 3, 5]] ∧
      (∀ (news : List (Vec4 α)) (a b c d e : ℕ),
        zsum news [a, b, c, d] = zsum news [a, b, c, e]) := by
  refine ⟨depthSums_cornerTransforms T, ?_, rfl, fun news a b c d e => rfl⟩
  simp only [depthKey, depthSums_cornerTransforms]
  exact ⟨rfl, rfl, rfl, rfl, rfl, rfl⟩

/-! ### Symmetry of the depth keys -/

theorem depthKey_eq_sum (T : Mat4 α) (f : ℕ) (h1 : 1 ≤ f) (h6 : f ≤ 6) :
    depthKey T f = (((sideOf f).take 3).map (cornerDepth T)).sum := by
  interval_cases f <;>
    simp [depthKey, depthSums_cornerTransforms, sideOf, sides, side1, side2, side3, side4,
      side5, side6, add_assoc]

theorem designated_lt (f : ℕ) (h1 : 1 ≤ f) (h6 : f ≤ 6) :
    ∀ i ∈ (sideOf f).take 3, i < 8 := by
  interval_cases f <;> decide

theorem quarterTurnY_isCubeSymmetry :
    IsCubeSymmetry (quarterTurnY : Mat4 α) quarterTurnYCorners quarterTurnYFaces := by
  refine ⟨⟨(block3_orthonormal_iff _).2 (by simp [Vec4.dot3, quarterTurnY]), rfl, rfl, rfl, rfl⟩,
    by simp [Mat4.det3, quarterTurnY], ?_, ?_⟩
  · intro i hi
    interval_cases i <;>
      simp [quarterTurnY, quarterTurnYCorners, cornerPoint, cubeCorners, Mat4.mulVec, Vec4.add,
        Vec4.scale]
  · intro f h1 h6
    interval_cases f <;> decide

/-- C7, as amended: taking arithmetic as exact (the scalars form a field, so sums may be
reordered and `(T * S) v = T (S v)`), for every transform `T`, every rotation `S` that maps
the cube onto itself with corner permutation `π` and induced face permutation `σ`, and
every face `f` whose three designated corners (the first three of its corner list) are
carried by `S` onto the three designated corners of face `σ f`, the depth key of face `f`
under `T * S` equals the depth key of face `σ f` under `T`. In rounded arithmetic the two
keys are sums of the same three terms taken in different orders and need not be equal to
the last digit. -/
theorem C7_depth_key_symmetry_designated (T S : Mat4 α) (π σ : ℕ → ℕ)
    (hsym : IsCubeSymmetry S π σ) (f : ℕ) (h1 : 1 ≤ f) (h6 : f ≤ 6)
    (hdes : (((sideOf f).take 3).map π).Perm ((sideOf (σ f)).take 3)) :
    depthKey (T.mul S) f = depthKey T (σ f) := by
  obtain ⟨_, _, hS, hF⟩ := hsym
  have hσ := (hF f h1 h6).1
  rw [depthKey_eq_sum _ f h1 h6, depthKey_eq_sum _ (σ f) hσ.1 hσ.2,
    ← (hdes.map (cornerDepth T)).sum_eq, List.map_map]
  congr 1
  refine List.map_congr_left fun i hi => ?_
  have hi8 := designated_lt f h1 h6 i hi
  simp [cornerDepth, mulVec_mul, (hS i hi8).1]

/-- The amended C7 at a concrete input, in exact rational arithmetic: the quarter turn about
Y carries the designated corners `0,1,2` of face 1 onto the designated corners `1,3,5` of
face 6. -/
theorem C7_depth_key_symmetry_designated_witness :
    IsCubeSymmetry (quarterTurnY : Mat4 ℚ) quarterTurnYCorners quarterTurnYFaces ∧
      (((sideOf 1).take 3).map quarterTurnYCorners).Perm
        ((sideOf (quarterTurnYFaces 1)).take 3) ∧
      depthKey ((⟨⟨1, 2, 3, 0⟩, ⟨4, 5, 6, 0⟩, ⟨7, 8, 10, 0⟩, ⟨1, 1, 1, 1⟩⟩ : Mat4 ℚ).mul
          quarterTurnY) 1
        = depthKey (⟨⟨1, 2, 3, 0⟩, ⟨4, 5, 6, 0⟩, ⟨7, 8, 10, 0⟩, ⟨1, 1, 1, 1⟩⟩ : Mat4 ℚ)
            (quarterTurnYFaces 1) :=
  ⟨quarterTurnY_isCubeSymmetry, by decide,
    C7_depth_key_symmetry_designated _ _ _ _ quarterTurnY_isCubeSymmetry 1 (by decide)
      (by decide) (by decide)⟩

/-- C7 as stated fails: the quarter turn about Y is a rotation mapping the cube onto itself
and it carries face 2 (`y = +0.3`) onto itself, yet with `T` the identity the depth key of
face 2 under `T * S` is `-0.3` while the depth key of face 2 under `T` is `0.3`. The
designated corners `0,1,4` of face 2 go to corners `1,5,0`, so corner 5 replaces corner 4
in the sum. All products and sums involved are exact, so the two keys differ in sign
whatever the arithmetic. -/
theorem C7_depth_key_symmetry_counterexample :
    IsCubeSymmetry (quarterTurnY : Mat4 ℚ) quarterTurnYCorners quarterTurnYFaces ∧
      quarterTurnYFaces 2 = 2 ∧
      depthKey ((Mat4.identity : Mat4 ℚ).mul quarterTurnY) 2 = -0.3 ∧
      depthKey (Mat4.identity : Mat4 ℚ) (quarterTurnYFaces 2) = 0.3 ∧
      depthKey ((Mat4.identity : Mat4 ℚ).mul quarterTurnY) 2
        ≠ depthKey (Mat4.identity : Mat4 ℚ) (quarterTurnYFaces 2) := by
  have ha : depthKey ((Mat4.identity : Mat4 ℚ).mul quarterTurnY) 2 = -0.3 := by
    simp [depthKey, depthSums_cornerTransforms, cornerDepth, cornerPoint, cubeCorners,
      Mat4.mul, Mat4.mulVec, Vec4.add, Vec4.scale, Mat4.identity, quarterTurnY]
  have hb : depthKey (Mat4.identity : Mat4 ℚ) (quarterTurnYFaces 2) = 0.3 := by
    simp [quarterTurnYFaces, depthKey, depthSums_cornerTransforms, cornerDepth, cornerPoint,
      cubeCorners, Mat4.mulVec, Vec4.add, Vec4.scale, Mat4.identity]
  refine ⟨quarterTurnY_isCubeSymmetry, rfl, ha, hb, ?_⟩
  rw [ha, hb]
  norm_num

/-! ### Holding one key for several frames -/

/-- Rotations about the same unit axis compose by the addition formulas. -/
theorem axisRotation_mul_axisRotation (c1 s1 c2 s2 : α) (n : Vec3 α) (hn : n.dot n = 1) :
    (axisRotation c1 s1 n).mul (axisRotation c2 s2 n)
      = axisRotation (c1 * c2 - s1 * s2) (s1 * c2 + c1 * s2) n := by
  simp only [Vec3.dot] at hn
  ext <;> simp only [Mat4.mul, Mat4.mulVec, Vec4.add, Vec4.scale, axisRotation]
  · linear_combination ((1 - c1) * (1 - c2) * n.x * n.x - s1 * s2) * hn
  · linear_combination ((1 - c1) * (1 - c2) * n.x * n.y) * hn
  · linear_combination ((1 - c1) * (1 - c2) * n.x * n.z) * hn
  · ring1
  · linear_combination ((1 - c1) * (1 - c2) * n.x * n.y) * hn
  · linear_combination ((1 - c1) * (1 - c2) * n.y * n.y - s1 * s2) * hn
  · linear_combination ((1 - c1) * (1 - c2) * n.y * n.z) * hn
  · ring1
  · linear_combination ((1 - c1) * (1 - c2) * n.x * n.z) * hn
  · linear_combination ((1 - c1) * (1 - c2) * n.y * n.z) * hn
  · linear_combination ((1 - c1) * (1 - c2) * n.z * n.z - s1 * s2) * hn
  · ring1
  · ring1
  · ring1
  · ring1
  · ring1

theorem axisRotation_zero (n : Vec3 α) : axisRotation (1 : α) 0 n = Mat4.identity := by
  ext <;> simp [axisRotation, Mat4.identity]

theorem runFrames_replicate_only (L : ScalarFns α) (hL : L.Exact) (hA : L.AngleSum) (k : Key)
    (K : ℕ) :
    ∀ T : Mat4 α, runFrames L T (List.replicate K (Keys.only k))
      = T.mul (axisRotation (L.cos ((K : α) * angleStep)) (L.sin ((K : α) * angleStep))
          k.axis) := by
  induction K with
  | zero =>
    intro T
    simp [runFrames, hA.cos_zero, hA.sin_zero, axisRotation_zero, mul_identity]
  | succ n ih =>
    intro T
    have hcast : ((n + 1 : ℕ) : α) * angleStep = (n : α) * angleStep + angleStep := by
      push_cast
      ring
    rw [List.replicate_succ', runFrames_append, ih, hcast, hA.cos_add, hA.sin_add]
    simp only [runFrames]
    rw [frameUpdate_only, rotate_eq_mul_axisRotation L hL _ _ _ (axis_unit k), mul_assoc_mat4,
      axisRotation_mul_axisRotation _ _ _ _ _ (axis_unit k)]

/-- The real cosine and sine satisfy the addition formulas. -/
theorem real_angleSum : (ScalarFns.mk Real.cos Real.sin fun x => (Real.sqrt x)⁻¹).AngleSum :=
  ⟨Real.cos_zero, Real.sin_zero, Real.cos_add, Real.sin_add⟩

/-- C13: with exact arithmetic, for every starting transform `T`, every `K` and each of the
six keys, `K` consecutive frames with only that key held yield `T * R(K * 0.0005, axis)`,
the rotation of angle `K * 0.0005` about the signed unit axis of the key: the angle is the
frame count times the fixed step, and nothing but the frame count enters it. -/
theorem C13_frame_count_accumulation (L : ScalarFns α) (hL : L.Exact) (hA : L.AngleSum)
    (T : Mat4 α) (K : ℕ) (k : Key) :
    runFrames L T (List.replicate K (Keys.only k))
      = T.mul (axisRotation (L.cos ((K : α) * angleStep)) (L.sin ((K : α) * angleStep))
          k.axis) :=
  runFrames_replicate_only L hL hA k K T

/-- C13 for the real cosine and sine: three frames of F from the quarter turn about Y. -/
theorem C13_frame_count_accumulation_witness :
    (ScalarFns.mk Real.cos Real.sin fun x => (Real.sqrt x)⁻¹).Exact ∧
      (ScalarFns.mk Real.cos Real.sin fun x => (Real.sqrt x)⁻¹).AngleSum ∧
      runFrames (ScalarFns.mk Real.cos Real.sin fun x => (Real.sqrt x)⁻¹)
          (quarterTurnY : Mat4 ℝ) (List.replicate 3 (Keys.only Key.f))
        = (quarterTurnY : Mat4 ℝ).mul
            (axisRotation (Real.cos (((3 : ℕ) : ℝ) * angleStep))
              (Real.sin (((3 : ℕ) : ℝ) * angleStep)) Key.f.axis) :=
  ⟨real_exact, real_angleSum,
    C13_frame_count_accumulation _ real_exact real_angleSum quarterTurnY 3 Key.f⟩

end Theorems

section FrameTheorems

variable {α : Type} [LinearOrderedField α]

/-! ### The draw sequence -/

/-- C8: for every two previous transforms and key states, the two frames issue the same
draw calls: six calls, face `k = 0..5` in source order, each drawing 6 indices at byte
offset `24 k` (the entries `6 k .. 6 k + 5` of `indices`), with the colours red, green,
orange `(1, 0.7, 0)`, blue, white, yellow; the draw calls are the same whatever the sorted
depth sums are. -/
theorem C8_draw_sequence_ignores_depth (L : ScalarFns α) (T1 T2 : Mat4 α) (k1 k2 : Keys) :
    (renderFrame L T1 k1).draws = (renderFrame L T2 k2).draws ∧
      (renderFrame L T1 k1).draws
        = [⟨⟨1, 0, 0, 1⟩, 6, 0⟩, ⟨⟨0, 1, 0, 1⟩, 6, 24⟩, ⟨⟨1, 0.7, 0, 1⟩, 6, 48⟩,
            ⟨⟨0, 0, 1, 1⟩, 6, 72⟩, ⟨⟨1, 1, 1, 1⟩, 6, 96⟩, ⟨⟨1, 1, 0, 1⟩, 6, 120⟩] ∧
      (renderFrame L T1 k1).draws.map DrawCall.drawnIndices
        = (List.range 6).map (fun k => (indices.drop (6 * k)).take 6) ∧
      (∀ zs zs' : List α, drawCalls zs = drawCalls zs') := by
  refine ⟨rfl, rfl, ?_, fun _ _ => rfl⟩
  simp only [renderFrame, drawCalls, List.map, DrawCall.drawnIndices, sizeofFloat,
    sizeofUnsignedInt]

/-! ### Exit code -/

theorem renderLoop_closed (L : ScalarFns α) (T : Mat4 α) (es : List FrameEvents) :
    renderLoop L true T es = ([], true) := by
  cases es <;> rfl

theorem renderLoop_exit (L : ScalarFns α) (es : List FrameEvents) :
    ∀ T : Mat4 α, (renderLoop L false T es).2 = es.any FrameEvents.closes := by
  induction es with
  | nil => intro T; rfl
  | cons e es ih =>
    intro T
    cases he : e.closes
    · simp [renderLoop, he, ih]
    · simp [renderLoop, he, renderLoop_closed]

/-- C10: `main` returns -1 without reaching the render loop when window creation fails, and
also when GL function loading fails, printing the corresponding message; otherwise it
reaches the loop and returns 0 as soon as the event trace contains a close request, and has
not returned while none occurred. In that case its output is, in order, one line
`ERROR::SHADER::VERTEX::COMPILATION_FAILED`, `ERROR::SHADER::FRAGMENT::COMPILATION_FAILED`,
`ERROR::SHADER::PROGRAM::LINKING_FAILED` followed by the info log for each shader step that
failed, and nothing else: each failure logs its message. The shader compile and link
outcomes change neither the exit code, nor whether the loop is reached, nor the frames
rendered. -/
theorem C10_exit_code_and_fatal_failures (L : ScalarFns α) (s : Startup)
    (events : List FrameEvents) :
    (s.windowCreated = false →
        (main L s events).exitCode = some (-1) ∧ (main L s events).loopReached = false ∧
          (main L s events).frames = [] ∧
          (main L s events).stdout = ["Failed to create GLFW window"]) ∧
      (s.windowCreated = true → s.gladLoaded = false →
        (main L s events).exitCode = some (-1) ∧ (main L s events).loopReached = false ∧
          (main L s events).frames = [] ∧
          (main L s events).stdout = ["Failed to initialize GLAD"]) ∧
      (s.windowCreated = true → s.gladLoaded = true →
        (main L s events).loopReached = true ∧
          (main L s events).stdout
            = (if s.vertexCompiled then []
                else ["ERROR::SHADER::VERTEX::COMPILATION_FAILED\n" ++ s.vertexLog])
              ++ (if s.fragmentCompiled then []
                else ["ERROR::SHADER::FRAGMENT::COMPILATION_FAILED\n" ++ s.fragmentLog])
              ++ (if s.programLinked then []
                else ["ERROR::SHADER::PROGRAM::LINKING_FAILED\n" ++ s.linkLog]) ∧
          (s.vertexCompiled = false →
            ("ERROR::SHADER::VERTEX::COMPILATION_FAILED\n" ++ s.vertexLog)
              ∈ (main L s events).stdout) ∧
          (s.fragmentCompiled = false →
            ("ERROR::SHADER::FRAGMENT::COMPILATION_FAILED\n" ++ s.fragmentLog)
              ∈ (main L s events).stdout) ∧
          (s.programLinked = false →
            ("ERROR::SHADER::PROGRAM::LINKING_FAILED\n" ++ s.linkLog)
              ∈ (main L s events).stdout) ∧
          ((∃ e ∈ events, e.closes = true) → (main L s events).exitCode = some 0) ∧
          ((∀ e ∈ events, e.closes = false) → (main L s events).exitCode = none)) ∧
      (∀ (v f l : Bool) (vl fl ll : String),
        (main L { s with vertexCompiled := v, fragmentCompiled := f, programLinked := l,
                          vertexLog := vl, fragmentLog := fl, linkLog := ll } events).exitCode
            = (main L s events).exitCode ∧
          (main L { s with vertexCompiled := v, fragmentCompiled := f, programLinked := l,
                            vertexLog := vl, fragmentLog := fl, linkLog := ll } events).loopReached
            = (main L s events).loopReached ∧
          (main L { s with vertexCompiled := v, fragmentCompiled := f, programLinked := l,
                            vertexLog := vl, fragmentLog := fl, linkLog := ll } events).frames
            = (main L s events).frames) := by
  refine ⟨?_, ?_, ?_, ?_⟩
  · intro hw
    simp [main, hw]
  · intro hw hg
    simp [main, hw, hg]
  · intro hw hg
    have hout : (main L s events).stdout
        = (if s.vertexCompiled then []
            else ["ERROR::SHADER::VERTEX::COMPILATION_FAILED\n" ++ s.vertexLog])
          ++ (if s.fragmentCompiled then []
            else ["ERROR::SHADER::FRAGMENT::COMPILATION_FAILED\n" ++ s.fragmentLog])
          ++ (if s.programLinked then []
            else ["ERROR::SHADER::PROGRAM::LINKING_FAILED\n" ++ s.linkLog]) := by
      simp [main, hw, hg, shaderMessages]
    refine ⟨by simp [main, hw, hg], hout, ?_, ?_, ?_, ?_, ?_⟩
    · intro hv
      rw [hout]
      simp [hv]
    · intro hf
      rw [hout]
      simp [hf]
    · intro hl
      rw [hout]
      simp [hl]
    · rintro ⟨e, he, hc⟩
      have : events.any FrameEvents.closes = true := List.any_eq_true.2 ⟨e, he, hc⟩
      simp [main, hw, hg, renderLoop_exit, this]
    · intro hall
      have : events.any FrameEvents.closes = false := by
        rw [List.any_eq_false]
        intro e he
        simp [hall e he]
      simp [main, hw, hg, renderLoop_exit, this]
  · intro v f l vl fl ll
    cases hw : s.windowCreated <;> cases hg : s.gladLoaded <;> simp [main, hw, hg]

/-- The parts of C10 at concrete inputs: a failed window, a failed loader, a run whose
second frame has escape pressed although all three shader steps failed (it returns 0 and
its output is the three messages with the logs `a`, `b`, `c`, the link message among them),
and a run without any close request. -/
theorem C10_exit_code_and_fatal_failures_witness :
    (main ratFns ⟨false, true, true, true, true, "", "", ""⟩
        [⟨false, Keys.none, true⟩]).exitCode = some (-1) ∧
      (main ratFns ⟨true, false, true, true, true, "", "", ""⟩
        [⟨false, Keys.none, true⟩]).loopReached = false ∧
      (main ratFns ⟨true, true, false, false, false, "a", "b", "c"⟩
        [⟨false, Keys.only Key.up, false⟩, ⟨true, Keys.none, false⟩,
          ⟨false, Keys.none, false⟩]).exitCode = some 0 ∧
      (main ratFns ⟨true, true, false, false, false, "a", "b", "c"⟩
        [⟨false, Keys.only Key.up, false⟩, ⟨true, Keys.none, false⟩,
          ⟨false, Keys.none, false⟩]).stdout
        = ["ERROR::SHADER::VERTEX::COMPILATION_FAILED\n" ++ "a",
            "ERROR::SHADER::FRAGMENT::COMPILATION_FAILED\n" ++ "b",
            "ERROR::SHADER::PROGRAM::LINKING_FAILED\n" ++ "c"] ∧
      ("ERROR::SHADER::PROGRAM::LINKING_FAILED\n" ++ "c")
        ∈ (main ratFns ⟨true, true, false, false, false, "a", "b", "c"⟩
            [⟨false, Keys.only Key.up, false⟩, ⟨true, Keys.none, false⟩,
              ⟨false, Keys.none, false⟩]).stdout ∧
      (main ratFns ⟨true, true, true, true, true, "", "", ""⟩
        [⟨false, Keys.only Key.up, false⟩]).exitCode = none :=
  ⟨((C10_exit_code_and_fatal_failures ratFns _ _).1 rfl).1,
    ((C10_exit_code_and_fatal_failures ratFns _ _).2.1 rfl rfl).2.1,
    ((C10_exit_code_and_fatal_failures ratFns _ _).2.2.1 rfl rfl).2.2.2.2.2.1
      ⟨⟨true, Keys.none, false⟩, by simp, rfl⟩,
    ((C10_exit_code_and_fatal_failures ratFns _ _).2.2.1 rfl rfl).2.1,
    ((C10_exit_code_and_fatal_failures ratFns _ _).2.2.1 rfl rfl).2.2.2.2.1 rfl,
    ((C10_exit_code_and_fatal_failures ratFns _ _).2.2.1 rfl rfl).2.2.2.2.2.2
      (by simp [FrameEvents.closes])⟩

/-! ### Sorting the depth sums -/

theorem sortDepthSums_sorted (zs : List α) : (sortDepthSums zs).Sorted (fun a b => a ≤ b) :=
  List.sorted_insertionSort _ zs

theorem sortDepthSums_perm (zs : List α) : (sortDepthSums zs).Perm zs :=
  List.perm_insertionSort _ zs

/-- The sorted array depends only on the multiset of the values. -/
theorem sortDepthSums_congr (zs zs' : List α) (h : zs.Perm zs') :
    sortDepthSums zs = sortDepthSums zs' :=
  List.eq_of_perm_of_sorted
    (((sortDepthSums_perm zs).trans h).trans (sortDepthSums_perm zs').symm)
    (sortDepthSums_sorted zs) (sortDepthSums_sorted zs')

theorem depthSums_eq_keys (M : Mat4 α) :
    depthSums (cornerTransforms M) = (List.range 6).map fun i => depthKey M (i + 1) := by
  simp [depthKey, depthSums, List.range_succ]

/-- C12: in every frame the array `zsums` after the sort step is the sorted list of the
depth sums of that frame's transform: it is in non-decreasing order, it is a permutation of
the six depth keys of faces 1 to 6, and it has six entries. The step sorts the values
themselves: its result is a list of scalars, the same for any two arrangements of the same
values, so it records no face index. -/
theorem C12_sorted_depth_sums (L : ScalarFns α) (T : Mat4 α) (k : Keys) :
    (renderFrame L T k).zsums
        = sortDepthSums (depthSums (cornerTransforms (renderFrame L T k).transform)) ∧
      (renderFrame L T k).zsums.Sorted (fun a b => a ≤ b) ∧
      (renderFrame L T k).zsums.Perm
        ((List.range 6).map fun i => depthKey (renderFrame L T k).transform (i + 1)) ∧
      (renderFrame L T k).zsums.length = 6 ∧
      (∀ zs zs' : List α, zs.Perm zs' → sortDepthSums zs = sortDepthSums zs') := by
  refine ⟨rfl, sortDepthSums_sorted _, ?_, ?_, sortDepthSums_congr⟩
  · rw [← depthSums_eq_keys]
    exact sortDepthSums_perm _
  · exact (sortDepthSums_perm _).length_eq

/-- The last part of C12 at a concrete input: two arrangements of the values 1, 2, 3. -/
theorem C12_sorted_depth_sums_witness :
    ([2, 1, 3] : List ℚ).Perm [1, 2, 3] ∧
      sortDepthSums ([2, 1, 3] : List ℚ) = sortDepthSums [1, 2, 3] :=
  ⟨List.Perm.swap 1 2 [3],
    (C12_sorted_depth_sums ratFns quarterTurnY Keys.none).2.2.2.2 _ _ (List.Perm.swap 1 2 [3])⟩

end FrameTheorems

section GeometryTheorems

variable {α : Type} [LinearOrderedField α]

/-! ### Consistency of the geometry tables -/

theorem vertexTriples_eq :
    (List.range 8).map (fun i => (vertexTriple i : Vec3 α)) = cubeCorners := by
  simp [List.range_succ, vertexTriple, vertexAt, vertices, cubeCorners]

theorem cubeCorners_nodup : (cubeCorners : List (Vec3 α)).Nodup := by
  have h : (0.3 : α) ≠ -0.3 := by norm_num
  have h' : (-0.3 : α) ≠ 0.3 := by norm_num
  simp [cubeCorners, h, h']

theorem mem_cubeCorners (p : Vec3 α) :
    p ∈ (cubeCorners : List (Vec3 α)) ↔
      (p.x = 0.3 ∨ p.x = -0.3) ∧ (p.y = 0.3 ∨ p.y = -0.3) ∧ (p.z = 0.3 ∨ p.z = -0.3) := by
  obtain ⟨x, y, z⟩ := p
  simp only [cubeCorners, List.mem_cons, Vec3.mk.injEq, List.mem_singleton, List.not_mem_nil,
    or_false]
  tauto

theorem faces_union (k : Fin 6) :
    (triangle (2 * k.val)).toFinset ∪ (triangle (2 * k.val + 1)).toFinset = (sideOf (k.val + 1)).toFinset ∧
      (sideOf (k.val + 1)).Nodup ∧ (sideOf (k.val + 1)).length = 4 := by
  revert k
  decide

theorem face_planes :
    side1.map (fun i => (vertexTriple i : Vec3 α).x) = [0.3, 0.3, 0.3, 0.3] ∧
      side2.map (fun i => (vertexTriple i : Vec3 α).y) = [0.3, 0.3, 0.3, 0.3] ∧
      side3.map (fun i => (vertexTriple i : Vec3 α).x) = [-0.3, -0.3, -0.3, -0.3] ∧
      side4.map (fun i => (vertexTriple i : Vec3 α).y) = [-0.3, -0.3, -0.3, -0.3] ∧
      side5.map (fun i => (vertexTriple i : Vec3 α).z) = [0.3, 0.3, 0.3, 0.3] ∧
      side6.map (fun i => (vertexTriple i : Vec3 α).z) = [-0.3, -0.3, -0.3, -0.3] := by
  simp [side1, side2, side3, side4, side5, side6, vertexTriple, vertexAt, vertices]

theorem shared_list :
    (List.range 6).map sharedCorners = [[1, 2], [1, 4], [5, 6], [2, 7], [0, 6], [1, 7]] := by
  decide

theorem shared_differing :
    (List.range 6).map (fun k =>
        (vertexTriple ((sharedCorners k).getD 0 0) : Vec3 α).differing
          (vertexTriple ((sharedCorners k).getD 1 0)))
      = [2, 2, 2, 2, 2, 2] := by
  have h : (0.3 : α) ≠ -0.3 := by norm_num
  have h' : (-0.3 : α) ≠ 0.3 := by norm_num
  have s0 : sharedCorners 0 = [1, 2] := by decide
  have s1 : sharedCorners 1 = [1, 4] := by decide
  have s2 : sharedCorners 2 = [5, 6] := by decide
  have s3 : sharedCorners 3 = [2, 7] := by decide
  have s4 : sharedCorners 4 = [0, 6] := by decide
  have s5 : sharedCorners 5 = [1, 7] := by decide
  simp [List.range_succ, s0, s1, s2, s3, s4, s5, Vec3.differing, vertexTriple, vertexAt,
    vertices, h, h']

/-! ### The two triangles of a face cover it -/

theorem InHull_perm {idx idx' : List ℕ} (h : idx.Perm idx') (p : Vec3 α) (hp : InHull idx p) :
    InHull idx' p := by
  obtain ⟨w, hw, hs, rfl⟩ := hp
  refine ⟨w, fun i hi => hw i (h.mem_iff.2 hi), ?_, ?_⟩
  · rw [← (h.map w).sum_eq]
    exact hs
  · rw [(h.map _).sum_eq, (h.map _).sum_eq, (h.map _).sum_eq]

/-- In a parallelogram `e1 d1 e2 d2` (diagonals `e1 e2` and `d1 d2`), weights on the four
corners with `w e2 ≤ w e1` can be moved onto the triangle `e1 d1 d2`. -/
theorem hull_split (e1 d1 d2 e2 : ℕ) (h1 : e1 ≠ d1) (h2 : e1 ≠ d2) (h3 : d1 ≠ d2)
    (hx : (vertexTriple e1 : Vec3 α).x + (vertexTriple e2 : Vec3 α).x
      = (vertexTriple d1 : Vec3 α).x + (vertexTriple d2 : Vec3 α).x)
    (hy : (vertexTriple e1 : Vec3 α).y + (vertexTriple e2 : Vec3 α).y
      = (vertexTriple d1 : Vec3 α).y + (vertexTriple d2 : Vec3 α).y)
    (hz : (vertexTriple e1 : Vec3 α).z + (vertexTriple e2 : Vec3 α).z
      = (vertexTriple d1 : Vec3 α).z + (vertexTriple d2 : Vec3 α).z)
    (w : ℕ → α) (w2 : 0 ≤ w d1) (w3 : 0 ≤ w d2) (w4 : 0 ≤ w e2) (hle : w e2 ≤ w e1) :
    ∃ u : ℕ → α, (0 ≤ u e1 ∧ 0 ≤ u d1 ∧ 0 ≤ u d2) ∧
      u e1 + u d1 + u d2 = w e1 + w d1 + w d2 + w e2 ∧
      (u e1 * (vertexTriple e1 : Vec3 α).x + u d1 * (vertexTriple d1 : Vec3 α).x
          + u d2 * (vertexTriple d2 : Vec3 α).x
        = w e1 * (vertexTriple e1 : Vec3 α).x + w d1 * (vertexTriple d1 : Vec3 α).x
          + w d2 * (vertexTriple d2 : Vec3 α).x + w e2 * (vertexTriple e2 : Vec3 α).x) ∧
      (u e1 * (vertexTriple e1 : Vec3 α).y + u d1 * (vertexTriple d1 : Vec3 α).y
          + u d2 * (vertexTriple d2 : Vec3 α).y
        = w e1 * (vertexTriple e1 : Vec3 α).y + w d1 * (vertexTriple d1 : Vec3 α).y
          + w d2 * (vertexTriple d2 : Vec3 α).y + w e2 * (vertexTriple e2 : Vec3 α).y) ∧
      (u e1 * (vertexTriple e1 : Vec3 α).z + u d1 * (vertexTriple d1 : Vec3 α).z
          + u d2 * (vertexTriple d2 : Vec3 α).z
        = w e1 * (vertexTriple e1 : Vec3 α).z + w d1 * (vertexTriple d1 : Vec3 α).z
          + w d2 * (vertexTriple d2 : Vec3 α).z + w e2 * (vertexTriple e2 : Vec3 α).z) := by
  refine ⟨fun i => if i = e1 then w e1 - w e2 else if i = d1 then w d1 + w e2
    else w d2 + w e2, ?_, ?_, ?_, ?_, ?_⟩
  · simp only [if_true, if_neg h1.symm, if_neg h2.symm, if_neg h3.symm]
    exact ⟨by linarith, by linarith, by linarith⟩
  · simp only [if_true, if_neg h1.symm, if_neg h2.symm, if_neg h3.symm]
    ring
  · simp only [if_true, if_neg h1.symm, if_neg h2.symm, if_neg h3.symm]
    linear_combination (- w e2) * hx
  · simp only [if_true, if_neg h1.symm, if_neg h2.symm, if_neg h3.symm]
    linear_combination (- w e2) * hy
  · simp only [if_true, if_neg h1.symm, if_neg h2.symm, if_neg h3.symm]
    linear_combination (- w e2) * hz

theorem hull_cover (e1 d1 d2 e2 : ℕ) (h1 : e1 ≠ d1) (h2 : e1 ≠ d2) (h3 : d1 ≠ d2)
    (h4 : e2 ≠ d1) (h5 : e2 ≠ d2)
    (hx : (vertexTriple e1 : Vec3 α).x + (vertexTriple e2 : Vec3 α).x
      = (vertexTriple d1 : Vec3 α).x + (vertexTriple d2 : Vec3 α).x)
    (hy : (vertexTriple e1 : Vec3 α).y + (vertexTriple e2 : Vec3 α).y
      = (vertexTriple d1 : Vec3 α).y + (vertexTriple d2 : Vec3 α).y)
    (hz : (vertexTriple e1 : Vec3 α).z + (vertexTriple e2 : Vec3 α).z
      = (vertexTriple d1 : Vec3 α).z + (vertexTriple d2 : Vec3 α).z)
    (p : Vec3 α) (hp : InHull [e1, d1, d2, e2] p) :
    InHull [e1, d1, d2] p ∨ InHull [e2, d1, d2] p := by
  obtain ⟨w, hw, hs, rfl⟩ := hp
  have w1 := hw e1 (by simp)
  have w2 := hw d1 (by simp)
  have w3 := hw d2 (by simp)
  have w4 := hw e2 (by simp)
  simp only [List.map_cons, List.map_nil, List.sum_cons, List.sum_nil, add_zero] at hs
  rcases le_total (w e2) (w e1) with hle | hle
  · obtain ⟨u, ⟨u1, u2, u3⟩, us, ux, uy, uz⟩ :=
      hull_split e1 d1 d2 e2 h1 h2 h3 hx hy hz w w2 w3 w4 hle
    left
    refine ⟨u, ?_, ?_, ?_⟩
    · intro i hi
      simp only [List.mem_cons, List.mem_singleton, List.not_mem_nil, or_false] at hi
      rcases hi with rfl | rfl | rfl <;> assumption
    · simp only [List.map_cons, List.map_nil, List.sum_cons, List.sum_nil, add_zero]
      linarith
    · ext <;> simp only [List.map_cons, List.map_nil, List.sum_cons, List.sum_nil, add_zero] <;>
        linarith
  · obtain ⟨u, ⟨u1, u2, u3⟩, us, ux, uy, uz⟩ :=
      hull_split e2 d1 d2 e1 h4 h5 h3 (by rw [add_comm]; exact hx) (by rw [add_comm]; exact hy)
        (by rw [add_comm]; exact hz) w w2 w3 w1 hle
    right
    refine ⟨u, ?_, ?_, ?_⟩
    · intro i hi
      simp only [List.mem_cons, List.mem_singleton, List.not_mem_nil, or_false] at hi
      rcases hi with rfl | rfl | rfl <;> assumption
    · simp only [List.map_cons, List.map_nil, List.sum_cons, List.sum_nil, add_zero]
      linarith
    · ext <;> simp only [List.map_cons, List.map_nil, List.sum_cons, List.sum_nil, add_zero] <;>
        linarith

theorem hull_cover_perm (q t1 t2 : List ℕ) (e1 d1 d2 e2 : ℕ) (hq : q.Perm [e1, d1, d2, e2])
    (ht1 : [e1, d1, d2].Perm t1) (ht2 : [e2, d1, d2].Perm t2)
    (h1 : e1 ≠ d1) (h2 : e1 ≠ d2) (h3 : d1 ≠ d2) (h4 : e2 ≠ d1) (h5 : e2 ≠ d2)
    (hx : (vertexTriple e1 : Vec3 α).x + (vertexTriple e2 : Vec3 α).x
      = (vertexTriple d1 : Vec3 α).x + (vertexTriple d2 : Vec3 α).x)
    (hy : (vertexTriple e1 : Vec3 α).y + (vertexTriple e2 : Vec3 α).y
      = (vertexTriple d1 : Vec3 α).y + (vertexTriple d2 : Vec3 α).y)
    (hz : (vertexTriple e1 : Vec3 α).z + (vertexTriple e2 : Vec3 α).z
      = (vertexTriple d1 : Vec3 α).z + (vertexTriple d2 : Vec3 α).z)
    (p : Vec3 α) (hp : InHull q p) : InHull t1 p ∨ InHull t2 p := by
  rcases hull_cover e1 d1 d2 e2 h1 h2 h3 h4 h5 hx hy hz p (InHull_perm hq p hp) with h | h
  · exact Or.inl (InHull_perm ht1 p h)
  · exact Or.inr (InHull_perm ht2 p h)

theorem vertexTriple_eq (α : Type) [LinearOrderedField α] (i : ℕ) (hi : i < 8) :
    (vertexTriple i : Vec3 α) = cubeCorners.getD i ⟨0, 0, 0⟩ := by
  interval_cases i <;> simp [vertexTriple, vertexAt, vertices, cubeCorners]

theorem faces_cover (k : Fin 6) (p : Vec3 α) (hp : InHull (sideOf (k.val + 1)) p) :
    InHull (triangle (2 * k.val)) p ∨ InHull (triangle (2 * k.val + 1)) p := by
  have v0 := vertexTriple_eq α 0 (by norm_num)
  have v1 := vertexTriple_eq α 1 (by norm_num)
  have v2 := vertexTriple_eq α 2 (by norm_num)
  have v3 := vertexTriple_eq α 3 (by norm_num)
  have v4 := vertexTriple_eq α 4 (by norm_num)
  have v5 := vertexTriple_eq α 5 (by norm_num)
  have v6 := vertexTriple_eq α 6 (by norm_num)
  have v7 := vertexTriple_eq α 7 (by norm_num)
  simp only [cubeCorners, List.getD_cons_zero, List.getD_cons_succ] at v0 v1 v2 v3 v4 v5 v6 v7
  fin_cases k
  · exact hull_cover_perm _ _ _ 0 1 2 3 (by decide) (by decide) (by decide) (by decide)
      (by decide) (by decide) (by decide) (by decide)
      (by norm_num [v0, v1, v2, v3]) (by norm_num [v0, v1, v2, v3])
      (by norm_num [v0, v1, v2, v3]) p hp
  · exact hull_cover_perm _ _ _ 0 1 4 5 (by decide) (by decide) (by decide) (by decide)
      (by decide) (by decide) (by decide) (by decide)
      (by norm_num [v0, v1, v4, v5]) (by norm_num [v0, v1, v4, v5])
      (by norm_num [v0, v1, v4, v5]) p hp
  · exact hull_cover_perm _ _ _ 4 5 6 7 (by decide) (by decide) (by decide) (by decide)
      (by decide) (by decide) (by decide) (by decide)
      (by norm_num [v4, v5, v6, v7]) (by norm_num [v4, v5, v6, v7])
      (by norm_num [v4, v5, v6, v7]) p hp
  · exact hull_cover_perm _ _ _ 6 2 7 3 (by decide) (by decide) (by decide) (by decide)
      (by decide) (by decide) (by decide) (by decide)
      (by norm_num [v6, v2, v7, v3]) (by norm_num [v6, v2, v7, v3])
      (by norm_num [v6, v2, v7, v3]) p hp
  · exact hull_cover_perm _ _ _ 2 0 6 4 (by decide) (by decide) (by decide) (by decide)
      (by decide) (by decide) (by decide) (by decide)
      (by norm_num [v2, v0, v6, v4]) (by norm_num [v2, v0, v6, v4])
      (by norm_num [v2, v0, v6, v4]) p hp
  · exact hull_cover_perm _ _ _ 3 1 7 5 (by decide) (by decide) (by decide) (by decide)
      (by decide) (by decide) (by decide) (by decide)
      (by norm_num [v3, v1, v7, v5]) (by norm_num [v3, v1, v7, v5])
      (by norm_num [v3, v1, v7, v5]) p hp

/-- C11: the vertex array has 24 floats and its eight triples are pairwise distinct and
are exactly the points with every coordinate `+0.3` or `-0.3`; for each face `k = 0..5` the
corners of triangles `2 k` and `2 k + 1` of the index array together are exactly the four
distinct corners of `side(k+1)`; the corners of `side1` .. `side6` share `x = 0.3`,
`y = 0.3`, `x = -0.3`, `y = -0.3`, `z = 0.3`, `z = -0.3` respectively; the two triangles of
a face share exactly two corners, which differ in two coordinates, i.e. they are
diagonally opposite on the face; and every point of the quadrilateral spanned by the four
corners of a face lies in one of its two triangles. -/
theorem C11_cube_geometry_consistency (α : Type) [LinearOrderedField α] :
    ((vertices : List α).length = 24 ∧
        ((List.range 8).map fun i => (vertexTriple i : Vec3 α)).Nodup ∧
        ((List.range 8).map fun i => (vertexTriple i : Vec3 α)).length = 8 ∧
        ∀ p : Vec3 α, (p ∈ (List.range 8).map fun i => (vertexTriple i : Vec3 α)) ↔
          (p.x = 0.3 ∨ p.x = -0.3) ∧ (p.y = 0.3 ∨ p.y = -0.3) ∧ (p.z = 0.3 ∨ p.z = -0.3)) ∧
      (indices.length = 36 ∧
        ∀ k : Fin 6,
          (triangle (2 * k.val)).toFinset ∪ (triangle (2 * k.val + 1)).toFinset
              = (sideOf (k.val + 1)).toFinset ∧
            (sideOf (k.val + 1)).Nodup ∧ (sideOf (k.val + 1)).length = 4) ∧
      (side1.map (fun i => (vertexTriple i : Vec3 α).x) = [0.3, 0.3, 0.3, 0.3] ∧
        side2.map (fun i => (vertexTriple i : Vec3 α).y) = [0.3, 0.3, 0.3, 0.3] ∧
        side3.map (fun i => (vertexTriple i : Vec3 α).x) = [-0.3, -0.3, -0.3, -0.3] ∧
        side4.map (fun i => (vertexTriple i : Vec3 α).y) = [-0.3, -0.3, -0.3, -0.3] ∧
        side5.map (fun i => (vertexTriple i : Vec3 α).z) = [0.3, 0.3, 0.3, 0.3] ∧
        side6.map (fun i => (vertexTriple i : Vec3 α).z) = [-0.3, -0.3, -0.3, -0.3]) ∧
      ((List.range 6).map sharedCorners = [[1, 2], [1, 4], [5, 6], [2, 7], [0, 6], [1, 7]] ∧
        (List.range 6).map (fun k =>
            (vertexTriple ((sharedCorners k).getD 0 0) : Vec3 α).differing
              (vertexTriple ((sharedCorners k).getD 1 0)))
          = [2, 2, 2, 2, 2, 2]) ∧
      (∀ (k : Fin 6) (p : Vec3 α), InHull (sideOf (k.val + 1)) p →
        InHull (triangle (2 * k.val)) p ∨ InHull (triangle (2 * k.val + 1)) p) := by
  refine ⟨⟨by simp [vertices], ?_, by simp, ?_⟩, ⟨by decide, faces_union⟩, face_planes,
    ⟨shared_list, shared_differing⟩, faces_cover⟩
  · rw [vertexTriples_eq]
    exact cubeCorners_nodup
  · intro p
    rw [vertexTriples_eq]
    exact mem_cubeCorners p

/-- The covering part of C11 at a concrete input: the centre `(0.3, 0, 0)` of face 1, with
weight `1/4` on each of its four corners, lies in one of the triangles 0 and 1. -/
theorem C11_cube_geometry_consistency_witness :
    InHull (sideOf 1) (⟨0.3, 0, 0⟩ : Vec3 ℚ) ∧
      (InHull (triangle 0) (⟨0.3, 0, 0⟩ : Vec3 ℚ) ∨
        InHull (triangle 1) (⟨0.3, 0, 0⟩ : Vec3 ℚ)) :=
  have h : InHull (sideOf 1) (⟨0.3, 0, 0⟩ : Vec3 ℚ) :=
    ⟨fun _ => 1 / 4, fun _ _ => by norm_num, by norm_num [sideOf, sides, side1],
      by ext <;> norm_num [sideOf, sides, side1, vertexTriple, vertexAt, vertices]⟩
  ⟨h, (C11_cube_geometry_consistency ℚ).2.2.2.2 0 _ h⟩

end GeometryTheorems

end Lab6CG
